import Mathlib

/-!
# Verification of scubainit's account-file codec and privilege transition

A shallow embedding of the core of `scubainit` (the Rust container-entrypoint
helper of the scuba project): the colon-delimited account-file codec
(`passwd` / `group` / `shadow`), the generic record-file reader/writer, the
identity-provisioning operations (`add_group` / `add_user` / `add_shadow`),
and the ordered privilege-drop sequence (`change_user`) together with the
surrounding orchestration (`run_scubainit`).

Rust strings are embedded as `List Char`; Rust `u32` values as `Nat`
(parsing enforces the `< 2^32` bound exactly as `str::parse::<u32>` does);
fallible operations return `Except`.  File contents are `List Char`; the
effects of syscalls and child processes are supplied as explicit oracle
functions so the control flow of the Rust code can be stated and proved.
-/

namespace Scubainit

/-- Rust `&str` / `String`, embedded as its character list. -/
abbrev Str := List Char

/-- Rust `line.split(c)`: split a string at every occurrence of `c`.
The empty string yields `[[]]` (one empty field), matching Rust's `split`. -/
def splitOnChar (c : Char) : Str → List Str
  | [] => [[]]
  | x :: xs =>
    if x = c then [] :: splitOnChar c xs
    else
      match splitOnChar c xs with
      | [] => [[x]]
      | p :: ps => (x :: p) :: ps

/-- Rust `parts.join(c)` / `format!` with `c` separators: interleave the
separator character between the given parts. -/
def joinChar (c : Char) : List Str → Str
  | [] => []
  | [p] => p
  | p :: ps => p ++ c :: joinChar c ps

theorem splitOnChar_ne_nil (c : Char) (s : Str) : splitOnChar c s ≠ [] := by
  induction s with
  | nil => simp [splitOnChar]
  | cons x xs ih =>
    simp only [splitOnChar]
    split
    · simp
    · split
      · simp
      · simp

theorem splitOnChar_not_mem (c : Char) (s : Str) (h : c ∉ s) :
    splitOnChar c s = [s] := by
  induction s with
  | nil => rfl
  | cons x xs ih =>
    simp only [List.mem_cons, not_or] at h
    have hx : ¬ x = c := fun hh => h.1 hh.symm
    simp only [splitOnChar, if_neg hx, ih h.2]

theorem splitOnChar_append_cons (c : Char) (p rest : Str) (h : c ∉ p) :
    splitOnChar c (p ++ c :: rest) = p :: splitOnChar c rest := by
  induction p with
  | nil => simp [splitOnChar]
  | cons x xs ih =>
    simp only [List.mem_cons, not_or] at h
    have hx : ¬ x = c := fun hh => h.1 hh.symm
    simp only [List.cons_append, splitOnChar, if_neg hx, List.append_eq, ih h.2]

/-- Splitting undoes joining, provided no part contains the separator. -/
theorem splitOnChar_joinChar (c : Char) (parts : List Str) (hne : parts ≠ [])
    (h : ∀ p ∈ parts, c ∉ p) :
    splitOnChar c (joinChar c parts) = parts := by
  induction parts with
  | nil => exact absurd rfl hne
  | cons p ps ih =>
    cases ps with
    | nil =>
      simp only [joinChar]
      exact splitOnChar_not_mem c p (h p (by simp))
    | cons q qs =>
      have hj : joinChar c (p :: q :: qs) = p ++ c :: joinChar c (q :: qs) := rfl
      rw [hj, splitOnChar_append_cons c p _ (h p (by simp))]
      rw [ih (by simp) (fun r hr => h r (List.mem_cons_of_mem p hr))]

theorem mem_joinChar {c : Char} {parts : List Str} {x : Char}
    (hx : x ∈ joinChar c parts) : x = c ∨ ∃ p ∈ parts, x ∈ p := by
  induction parts with
  | nil => simp [joinChar] at hx
  | cons p ps ih =>
    cases ps with
    | nil =>
      simp only [joinChar] at hx
      exact Or.inr ⟨p, by simp, hx⟩
    | cons q qs =>
      have hj : joinChar c (p :: q :: qs) = p ++ c :: joinChar c (q :: qs) := rfl
      rw [hj] at hx
      rcases List.mem_append.mp hx with hp | hrest
      · exact Or.inr ⟨p, by simp, hp⟩
      · rcases List.mem_cons.mp hrest with rfl | htail
        · exact Or.inl rfl
        · rcases ih htail with hc | ⟨r, hr, hxr⟩
          · exact Or.inl hc
          · exact Or.inr ⟨r, List.mem_cons_of_mem p hr, hxr⟩

/-! ## Decimal `u32` formatting and parsing

`natToChars` embeds Rust's `u32::to_string` (callers only apply it below
`2^32`); `readU32?` embeds `str::parse::<u32>`: an optional leading `+`,
then one or more decimal digits, value below `2^32`. -/

/-- The character for one decimal digit. -/
def digitChar (d : Nat) : Char := Char.ofNat (48 + d)

/-- Decimal representation of a natural number (Rust `u32::to_string`). -/
def natToChars (n : Nat) : Str :=
  if n = 0 then ['0'] else ((Nat.digits 10 n).map digitChar).reverse

/-- The numeric value of a decimal digit character, if it is one. -/
def charDigit (ch : Char) : Option Nat :=
  if '0' ≤ ch ∧ ch ≤ '9' then some (ch.toNat - 48) else none

/-- Accumulate decimal digits left to right; `none` on a non-digit. -/
def readDigits (acc : Nat) : Str → Option Nat
  | [] => some acc
  | ch :: rest =>
    match charDigit ch with
    | some d => readDigits (acc * 10 + d) rest
    | none => none

/-- Rust `str::parse::<u32>()`, as an `Option`: strips an optional leading
`+`, requires at least one digit, and rejects values at or above `2^32`. -/
def readU32 (s : Str) : Option Nat :=
  let t : Str :=
    match s with
    | c :: rest => if c = '+' then rest else c :: rest
    | [] => []
  if t = [] then none
  else
    match readDigits 0 t with
    | some n => if n < 4294967296 then some n else none
    | none => none

theorem digitChar_lt_ten (d : Nat) (h : d < 10) :
    '0' ≤ digitChar d ∧ digitChar d ≤ '9' := by
  interval_cases d <;> exact ⟨by decide, by decide⟩

theorem charDigit_digitChar (d : Nat) (h : d < 10) :
    charDigit (digitChar d) = some d := by
  interval_cases d <;> rfl

theorem natToChars_all_digits (n : Nat) :
    ∀ ch ∈ natToChars n, '0' ≤ ch ∧ ch ≤ '9' := by
  intro ch hch
  unfold natToChars at hch
  split at hch
  · simp only [List.mem_singleton] at hch
    subst hch
    exact ⟨by decide, by decide⟩
  · rw [List.mem_reverse] at hch
    obtain ⟨d, hd, rfl⟩ := List.mem_map.mp hch
    exact digitChar_lt_ten d (Nat.digits_lt_base (by norm_num) hd)

theorem colon_not_mem_natToChars (n : Nat) : ':' ∉ natToChars n := by
  intro h
  have := natToChars_all_digits n ':' h
  exact absurd this.2 (by decide)

theorem comma_not_mem_natToChars (n : Nat) : ',' ∉ natToChars n := by
  intro h
  have := natToChars_all_digits n ',' h
  exact absurd this.1 (by decide)

theorem newline_not_mem_natToChars (n : Nat) : '\n' ∉ natToChars n := by
  intro h
  have := natToChars_all_digits n '\n' h
  exact absurd this.1 (by decide)

theorem readDigits_append (acc : Nat) (l l' : Str) :
    readDigits acc (l ++ l') =
      (readDigits acc l).bind (fun a => readDigits a l') := by
  induction l generalizing acc with
  | nil => rfl
  | cons ch rest ih =>
    simp only [List.cons_append, readDigits]
    cases charDigit ch with
    | none => rfl
    | some d => exact ih _

theorem readDigits_digits_reverse (D : List Nat) (hD : ∀ d ∈ D, d < 10) :
    ∀ acc, readDigits acc ((D.map digitChar).reverse) =
      some (acc * 10 ^ D.length + Nat.ofDigits 10 D) := by
  induction D with
  | nil => intro acc; simp [readDigits, Nat.ofDigits]
  | cons d D ih =>
    intro acc
    simp only [List.map_cons, List.reverse_cons, readDigits_append]
    rw [ih (fun e he => hD e (List.mem_cons_of_mem d he)) acc]
    simp only [Option.some_bind, readDigits,
      charDigit_digitChar d (hD d (List.mem_cons_self d D))]
    rw [Nat.ofDigits_cons, List.length_cons, pow_succ]
    congr 1
    ring

theorem readDigits_natToChars (n : Nat) : readDigits 0 (natToChars n) = some n := by
  by_cases h : n = 0
  · subst h; rfl
  · unfold natToChars
    rw [if_neg h]
    rw [readDigits_digits_reverse (Nat.digits 10 n)
      (fun d hd => Nat.digits_lt_base (by norm_num) hd) 0]
    simp [Nat.ofDigits_digits]

theorem natToChars_ne_nil (n : Nat) : natToChars n ≠ [] := by
  unfold natToChars
  split
  · simp
  · intro hcon
    rw [List.reverse_eq_nil_iff, List.map_eq_nil_iff] at hcon
    exact absurd hcon (by simpa [Nat.digits_eq_nil_iff_eq_zero] using by assumption)

/-- Parsing the decimal representation of `n < 2^32` recovers `n`. -/
theorem readU32_natToChars (n : Nat) (h : n < 4294967296) :
    readU32 (natToChars n) = some n := by
  have hne := natToChars_ne_nil n
  match hmatch : natToChars n with
  | [] => exact absurd hmatch hne
  | c :: rest =>
    have hc : '0' ≤ c ∧ c ≤ '9' := by
      apply natToChars_all_digits n
      rw [hmatch]; exact List.mem_cons_self c rest
    have hcp : ¬ c = '+' := by
      intro hcon
      subst hcon
      exact absurd hc.1 (by decide)
    have hrd : readDigits 0 (c :: rest) = some n := by
      rw [← hmatch]; exact readDigits_natToChars n
    simp only [readU32, if_neg hcp, reduceCtorEq, if_neg, ite_false, hrd]
    simp [h]

/-! ## Entry codec (`entfiles.rs`, `passwd.rs`, `groups.rs`, `shadow.rs`)

Each `from_line` in the Rust source drives a `line.split(':')` iterator with
a `next_field` closure (`parts.next().ok_or(ReadEntryError::Invalid)`).  The
iterator is embedded as the list of fields produced by `splitOnChar ':'`;
`next_field` takes the head or fails with `Invalid`. -/

/-- `ReadEntryError` from `entfiles.rs`.  Payloads (the underlying
`std::io::Error` / `ParseIntError`) carry no information the claims need. -/
inductive ReadEntryError
  | Io
  | ParseInt
  | Invalid
deriving DecidableEq, Repr

/-- `parts.next().ok_or(ReadEntryError::Invalid)`: take the next field. -/
def next_field : List Str → Except ReadEntryError (Str × List Str)
  | [] => .error .Invalid
  | f :: rest => .ok (f, rest)

/-- `field.parse::<u32>().map_err(ReadEntryError::ParseInt)`. -/
def parse_u32 (s : Str) : Except ReadEntryError Nat :=
  match readU32 s with
  | some n => .ok n
  | none => .error .ParseInt

/-- `util::maybe_parse` (with the caller's `map_err(ReadEntryError::ParseInt)`
folded in): an empty field is absent, a non-empty field must parse as `u32`. -/
def maybe_parse (s : Str) : Except ReadEntryError (Option Nat) :=
  if s = [] then .ok none
  else
    match readU32 s with
    | some n => .ok (some n)
    | none => .error .ParseInt

/-- `util::split_csv_str`: empty input yields no members, otherwise split
at every comma. -/
def split_csv_str (input : Str) : List Str :=
  if input = [] then [] else splitOnChar ',' input

/-- `util::to_string_or_empty` specialized to `u32`. -/
def to_string_or_empty (value : Option Nat) : Str :=
  match value with
  | some n => natToChars n
  | none => []

/-- `passwd.rs`: one `/etc/passwd` record. -/
structure PasswdEntry where
  name : Str
  passwd : Str
  uid : Nat
  gid : Nat
  gecos : Str
  home_dir : Str
  shell : Str
deriving DecidableEq, Repr

/-- `PasswdEntry::from_line`, factored over the field list of the line. -/
def PasswdEntry.fromFields (parts : List Str) : Except ReadEntryError PasswdEntry := do
  let (name, parts) ← next_field parts
  let (passwd, parts) ← next_field parts
  let (uidStr, parts) ← next_field parts
  let uid ← parse_u32 uidStr
  let (gidStr, parts) ← next_field parts
  let gid ← parse_u32 gidStr
  let (gecos, parts) ← next_field parts
  let (home_dir, parts) ← next_field parts
  let (shell, _) ← next_field parts
  return { name, passwd, uid, gid, gecos, home_dir, shell }

/-- `PasswdEntry::from_line`. -/
def PasswdEntry.from_line (line : Str) : Except ReadEntryError PasswdEntry :=
  PasswdEntry.fromFields (splitOnChar ':' line)

/-- `PasswdEntry::to_line`. -/
def PasswdEntry.to_line (e : PasswdEntry) : Str :=
  joinChar ':' [e.name, e.passwd, natToChars e.uid, natToChars e.gid,
    e.gecos, e.home_dir, e.shell]

/-- `groups.rs`: one `/etc/group` record. -/
structure GroupEntry where
  name : Str
  passwd : Str
  gid : Nat
  members : List Str
deriving DecidableEq, Repr

/-- `GroupEntry::from_line`, factored over the field list of the line. -/
def GroupEntry.fromFields (parts : List Str) : Except ReadEntryError GroupEntry := do
  let (name, parts) ← next_field parts
  let (passwd, parts) ← next_field parts
  let (gidStr, parts) ← next_field parts
  let gid ← parse_u32 gidStr
  let (membersStr, _) ← next_field parts
  return { name, passwd, gid, members := split_csv_str membersStr }

/-- `GroupEntry::from_line`. -/
def GroupEntry.from_line (line : Str) : Except ReadEntryError GroupEntry :=
  GroupEntry.fromFields (splitOnChar ':' line)

/-- `GroupEntry::to_line`. -/
def GroupEntry.to_line (e : GroupEntry) : Str :=
  joinChar ':' [e.name, e.passwd, natToChars e.gid, joinChar ',' e.members]

/-- `shadow.rs`: one `/etc/shadow` record. -/
structure ShadowEntry where
  name : Str
  passwd : Str
  last_change_date : Option Nat
  min_password_age : Option Nat
  max_password_age : Option Nat
  warn_period : Option Nat
  inact_period : Option Nat
  expire_date : Option Nat
deriving DecidableEq, Repr

/-- `ShadowEntry::from_line`, factored over the field list of the line.
The 9th (reserved) field, when present, is never requested. -/
def ShadowEntry.fromFields (parts : List Str) : Except ReadEntryError ShadowEntry := do
  let (name, parts) ← next_field parts
  let (passwd, parts) ← next_field parts
  let (f3, parts) ← next_field parts
  let last_change_date ← maybe_parse f3
  let (f4, parts) ← next_field parts
  let min_password_age ← maybe_parse f4
  let (f5, parts) ← next_field parts
  let max_password_age ← maybe_parse f5
  let (f6, parts) ← next_field parts
  let warn_period ← maybe_parse f6
  let (f7, parts) ← next_field parts
  let inact_period ← maybe_parse f7
  let (f8, _) ← next_field parts
  let expire_date ← maybe_parse f8
  return { name, passwd, last_change_date, min_password_age, max_password_age,
           warn_period, inact_period, expire_date }

/-- `ShadowEntry::from_line`. -/
def ShadowEntry.from_line (line : Str) : Except ReadEntryError ShadowEntry :=
  ShadowEntry.fromFields (splitOnChar ':' line)

/-- `ShadowEntry::to_line`.  The trailing `:` of the Rust format string
makes an empty 9th (reserved) field. -/
def ShadowEntry.to_line (e : ShadowEntry) : Str :=
  joinChar ':' [e.name, e.passwd,
    to_string_or_empty e.last_change_date,
    to_string_or_empty e.min_password_age,
    to_string_or_empty e.max_password_age,
    to_string_or_empty e.warn_period,
    to_string_or_empty e.inact_period,
    to_string_or_empty e.expire_date,
    []]

/-! ### Validity of constructed records

A record is *valid* when its text fields are free of the structural
delimiters of its file format and its numeric fields fit in `u32` — the
conditions under which the record can be faithfully written at all. -/

/-- A valid `PasswdEntry`: text fields contain no `:`, ids fit in `u32`. -/
def PasswdEntry.Valid (e : PasswdEntry) : Prop :=
  ':' ∉ e.name ∧ ':' ∉ e.passwd ∧ e.uid < 4294967296 ∧ e.gid < 4294967296 ∧
  ':' ∉ e.gecos ∧ ':' ∉ e.home_dir ∧ ':' ∉ e.shell

/-- A valid `GroupEntry`: text fields contain no `:`, members contain
neither `:` nor `,`, the member list is not the single empty member
(which serializes identically to the empty list), gid fits in `u32`. -/
def GroupEntry.Valid (e : GroupEntry) : Prop :=
  ':' ∉ e.name ∧ ':' ∉ e.passwd ∧ e.gid < 4294967296 ∧
  (∀ m ∈ e.members, ':' ∉ m ∧ ',' ∉ m) ∧ e.members ≠ [[]]

/-- A valid `ShadowEntry`: text fields contain no `:`, optional numeric
fields fit in `u32` when present. -/
def ShadowEntry.Valid (e : ShadowEntry) : Prop :=
  ':' ∉ e.name ∧ ':' ∉ e.passwd ∧
  (∀ n ∈ e.last_change_date, n < 4294967296) ∧
  (∀ n ∈ e.min_password_age, n < 4294967296) ∧
  (∀ n ∈ e.max_password_age, n < 4294967296) ∧
  (∀ n ∈ e.warn_period, n < 4294967296) ∧
  (∀ n ∈ e.inact_period, n < 4294967296) ∧
  (∀ n ∈ e.expire_date, n < 4294967296)

/-! ## Record file engine (`entfiles.rs`)

The reader's `next` loop calls `BufRead::read_line`, which yields maximal
newline-terminated segments (the last segment may be unterminated, and a
trailing terminator produces no extra segment).  `fileLines` computes those
segments, with terminators stripped: stripping is harmless because every
use below either tests `starts_with("#")` (unchanged by a trailing `\n`)
or applies `trim_end` (which removes the `\n` anyway).  Underlying-I/O
errors are not modeled: the content is given. -/

/-- Rust `char::is_whitespace`: the Unicode `White_Space` property —
U+0009..U+000D, U+0020, U+0085, U+00A0, U+1680, U+2000..U+200A, U+2028,
U+2029, U+202F, U+205F and U+3000. -/
def isWhitespaceChar (c : Char) : Bool :=
  (decide (0x09 ≤ c.toNat) && decide (c.toNat ≤ 0x0D)) ||
  decide (c.toNat = 0x20) || decide (c.toNat = 0x85) ||
  decide (c.toNat = 0xA0) || decide (c.toNat = 0x1680) ||
  (decide (0x2000 ≤ c.toNat) && decide (c.toNat ≤ 0x200A)) ||
  decide (c.toNat = 0x2028) || decide (c.toNat = 0x2029) ||
  decide (c.toNat = 0x202F) || decide (c.toNat = 0x205F) ||
  decide (c.toNat = 0x3000)

/-- Rust `str::trim_end`: drop trailing whitespace. -/
def trimEnd (s : Str) : Str :=
  (s.reverse.dropWhile isWhitespaceChar).reverse

/-- Rust `line.starts_with("#")`: non-empty and first character `#`. -/
def startsWithHash : Str → Bool
  | c :: _ => c == '#'
  | [] => false

/-- Drop a trailing empty segment (an input ending in `\n`, or empty input,
yields no final line from `read_line`). -/
def dropLastEmpty (ls : List Str) : List Str :=
  match ls.getLast? with
  | some [] => ls.dropLast
  | _ => ls

/-- The sequence of lines `read_line` yields on `content` (terminators
stripped). -/
def fileLines (content : Str) : List Str :=
  dropLastEmpty (splitOnChar '\n' content)

/-- `impl Iterator for EntFileReader<T>`: the full sequence of items the
reader yields on `content`.  Comment lines are skipped, lines blank after
`trim_end` are skipped, every other line is parsed (after `trim_end`) and
yielded, success or failure. -/
def readEntries {α : Type} (from_line : Str → Except ReadEntryError α)
    (content : Str) : List (Except ReadEntryError α) :=
  (fileLines content).filterMap fun line =>
    if startsWithHash line then none
    else
      let t := trimEnd line
      if t = [] then none else some (from_line t)

/-- `EntFileWriter::write` can fail on underlying I/O, or report a short
write. -/
inductive WriteError
  | ioError
  | shortWrite
deriving DecidableEq, Repr

/-- `EntFileWriter::<T>::write`: serialize the entry, append one newline,
write the bytes.  `reported` is what the underlying `File::write` returned
(`none` = I/O error).  On success the new file content is returned. -/
def EntFileWriter.write {α : Type} (to_line : α → Str) (file : Str)
    (entry : α) (reported : Option Nat) : Except WriteError Str :=
  let data := to_line entry ++ ['\n']
  match reported with
  | none => .error .ioError
  | some written =>
    if written ≠ data.length then .error .shortWrite
    else .ok (file ++ data)

/-! ## Identity provisioning (`main.rs`: `UserInfo::add_{group,user,shadow}`)

Each `add_*` scans the entries the reader yields (a parse error aborts the
scan, as `let grp = grp?` does) and then possibly appends one new record.
The outcome records what was appended and whether the non-fatal
gid/uid-collision warning fired. -/

/-- `INVALID_PASSWORD`. -/
def INVALID_PASSWORD : Str := ['x']

/-- `DEFAULT_SHELL`. -/
def DEFAULT_SHELL : Str := "/bin/bash".toList

/-- `USER_HOME`. -/
def USER_HOME : Str := "/home".toList

/-- The requested identity tuple (`struct UserInfo` in `main.rs`). -/
structure UserInfo where
  uid : Nat
  gid : Nat
  user : Str
  group : Str
deriving DecidableEq, Repr

/-- `UserInfo::home_dir`: `Path::new(USER_HOME).join(&self.user)`.
`PathBuf::join` replaces the base when the appended path is absolute. -/
def UserInfo.home_dir (u : UserInfo) : Str :=
  match u.user with
  | '/' :: _ => u.user
  | _ => USER_HOME ++ '/' :: u.user

/-- A failure of an `add_*` operation: a parse error surfaced by the scan,
or the `bail!` on a conflicting existing record. -/
inductive AddError
  | readFailed (e : ReadEntryError)
  | conflict
deriving DecidableEq, Repr

/-- Result of a successful `add_*` call: the records appended (at most
one), and whether the non-fatal collision warning was logged. -/
structure AddOutcome (α : Type) where
  appended : List α
  warned : Bool
deriving DecidableEq, Repr

/-- The group record `add_group` appends. -/
def UserInfo.newGroup (u : UserInfo) : GroupEntry :=
  { name := u.group, passwd := INVALID_PASSWORD, gid := u.gid, members := [] }

/-- The passwd record `add_user` appends. -/
def UserInfo.newPasswd (u : UserInfo) : PasswdEntry :=
  { name := u.user, passwd := INVALID_PASSWORD, uid := u.uid, gid := u.gid,
    gecos := u.user, home_dir := u.home_dir, shell := DEFAULT_SHELL }

/-- The shadow record `add_shadow` appends. -/
def UserInfo.newShadow (u : UserInfo) : ShadowEntry :=
  { name := u.user, passwd := INVALID_PASSWORD, last_change_date := none,
    min_password_age := none, max_password_age := none, warn_period := none,
    inact_period := none, expire_date := none }

/-- The scan loop of `UserInfo::add_group` over the reader's items,
followed by the append.  `warned` accumulates whether the gid-collision
warning has fired. -/
def add_group_loop (group_name : Str) (gid : Nat) (newEnt : GroupEntry)
    (warned : Bool) :
    List (Except ReadEntryError GroupEntry) → Except AddError (AddOutcome GroupEntry)
  | [] => .ok ⟨[newEnt], warned⟩
  | .error e :: _ => .error (.readFailed e)
  | .ok grp :: rest =>
    if grp.name = group_name then
      if grp.gid = gid then .ok ⟨[], warned⟩
      else .error .conflict
    else if grp.gid = gid then add_group_loop group_name gid newEnt true rest
    else add_group_loop group_name gid newEnt warned rest

/-- `UserInfo::add_group`, over the items the reader yields. -/
def UserInfo.add_group (u : UserInfo)
    (items : List (Except ReadEntryError GroupEntry)) :
    Except AddError (AddOutcome GroupEntry) :=
  add_group_loop u.group u.gid u.newGroup false items

/-- The scan loop of `UserInfo::add_user`, keyed on (name, uid). -/
def add_user_loop (user_name : Str) (uid : Nat) (newEnt : PasswdEntry)
    (warned : Bool) :
    List (Except ReadEntryError PasswdEntry) → Except AddError (AddOutcome PasswdEntry)
  | [] => .ok ⟨[newEnt], warned⟩
  | .error e :: _ => .error (.readFailed e)
  | .ok pwd :: rest =>
    if pwd.name = user_name then
      if pwd.uid = uid then .ok ⟨[], warned⟩
      else .error .conflict
    else if pwd.uid = uid then add_user_loop user_name uid newEnt true rest
    else add_user_loop user_name uid newEnt warned rest

/-- `UserInfo::add_user`, over the items the reader yields. -/
def UserInfo.add_user (u : UserInfo)
    (items : List (Except ReadEntryError PasswdEntry)) :
    Except AddError (AddOutcome PasswdEntry) :=
  add_user_loop u.user u.uid u.newPasswd false items

/-- The scan loop of `UserInfo::add_shadow`, keyed on name only. -/
def add_shadow_loop (user_name : Str) (newEnt : ShadowEntry) :
    List (Except ReadEntryError ShadowEntry) → Except AddError (AddOutcome ShadowEntry)
  | [] => .ok ⟨[newEnt], false⟩
  | .error e :: _ => .error (.readFailed e)
  | .ok sp :: rest =>
    if sp.name = user_name then .ok ⟨[], false⟩
    else add_shadow_loop user_name newEnt rest

/-- `UserInfo::add_shadow`, over the items the reader yields. -/
def UserInfo.add_shadow (u : UserInfo)
    (items : List (Except ReadEntryError ShadowEntry)) :
    Except AddError (AddOutcome ShadowEntry) :=
  add_shadow_loop u.user u.newShadow items

/-! ### File-level `add_*`: `open_read_append`, scan, append

`util::open_read_append` opens with `create(true)`, so a missing file
behaves as an empty one.  The append is modeled with the writer accepting
the full byte count (`EntFileWriter::write` with `reported = data.length`). -/

/-- `add_group` at the file level: `content` is the file's content, `none`
when the file does not exist. -/
def UserInfo.add_group_file (u : UserInfo) (content : Option Str) :
    Except AddError Str :=
  let c := content.getD []
  match u.add_group (readEntries GroupEntry.from_line c) with
  | .error e => .error e
  | .ok out => .ok (c ++ (out.appended.map (fun g => g.to_line ++ ['\n'])).flatten)

/-- `add_user` at the file level. -/
def UserInfo.add_user_file (u : UserInfo) (content : Option Str) :
    Except AddError Str :=
  let c := content.getD []
  match u.add_user (readEntries PasswdEntry.from_line c) with
  | .error e => .error e
  | .ok out => .ok (c ++ (out.appended.map (fun p => p.to_line ++ ['\n'])).flatten)

/-- `add_shadow` at the file level. -/
def UserInfo.add_shadow_file (u : UserInfo) (content : Option Str) :
    Except AddError Str :=
  let c := content.getD []
  match u.add_shadow (readEntries ShadowEntry.from_line c) with
  | .error e => .error e
  | .ok out => .ok (c ++ (out.appended.map (fun s => s.to_line ++ ['\n'])).flatten)

/-! ## Privilege transition (`main.rs`: `UserInfo::change_user`, `run_scubainit`)

The three privilege syscalls and the other effects of `run_scubainit` are
embedded as an oracle (`SysBehavior` / `Behavior`) that says which calls
succeed, and the functions return the ordered trace of the effects they
performed together with their outcome. -/

/-- One privilege syscall invocation, with its argument. -/
inductive SysCall
  | setgroupsClear
  | setgid (gid : Nat)
  | setuid (uid : Nat)
deriving DecidableEq, Repr

/-- Outcome oracle for the three privilege syscalls. -/
structure SysBehavior where
  setgroupsOk : Bool
  setgidOk : Nat → Bool
  setuidOk : Nat → Bool

/-- Result of `UserInfo::change_user`: the syscalls invoked (in order), the
`env::set_var` rebindings performed (in order), and whether the function
returned `Ok`. -/
structure ChangeUserResult where
  calls : List SysCall
  envSets : List (Str × Str)
  ok : Bool
deriving DecidableEq, Repr

/-- `UserInfo::change_user`: `setgroups(0, NULL)`, then `setgid(gid)`, then
`setuid(uid)`, each returning immediately on failure; on success rebind
`USER`, `LOGNAME` and `HOME`. -/
def UserInfo.change_user (sys : SysBehavior) (u : UserInfo) : ChangeUserResult :=
  let calls := [SysCall.setgroupsClear]
  if !sys.setgroupsOk then ⟨calls, [], false⟩
  else
    let calls := calls ++ [SysCall.setgid u.gid]
    if !sys.setgidOk u.gid then ⟨calls, [], false⟩
    else
      let calls := calls ++ [SysCall.setuid u.uid]
      if !sys.setuidOk u.uid then ⟨calls, [], false⟩
      else
        ⟨calls,
         [("USER".toList, u.user), ("LOGNAME".toList, u.user),
          ("HOME".toList, u.home_dir)], true⟩

/-- `struct Context` from `main.rs`. -/
structure Context where
  user_info : Option UserInfo
  umask : Option Nat
  user_hook : Option Str
  root_hook : Option Str

/-- Outcome oracle for `run_scubainit`'s effects other than the privilege
syscalls: the four provisioning steps and the hook child processes
(`hookOk p` = the hook at path `p` ran and exited successfully;
`make_executable` failures are folded into it). -/
structure Behavior where
  sys : SysBehavior
  makeHomedirOk : Bool
  addGroupOk : Bool
  addUserOk : Bool
  addShadowOk : Bool
  hookOk : Str → Bool

/-- One observable step of `run_scubainit`. -/
inductive Event
  | makeHomedir
  | addGroup
  | addUser
  | addShadow
  | runHook (path : Str)
  | sysCall (c : SysCall)
  | envSet (name value : Str)
  | setUmask (mask : Nat)
  | execProgram
deriving DecidableEq, Repr

/-- `Context::call_hook`: no-op when no path is configured, otherwise run
the hook and propagate its success. -/
def Context.call_hook (b : Behavior) (path : Option Str) : List Event × Bool :=
  match path with
  | none => ([], true)
  | some p => ([.runHook p], b.hookOk p)

/-- The provisioning block of `run_scubainit` (`make_homedir`, `add_group`,
`add_user`, `add_shadow`, each `?`-propagated). -/
def provisionSteps (b : Behavior) : List Event × Bool :=
  if !b.makeHomedirOk then ([.makeHomedir], false)
  else if !b.addGroupOk then ([.makeHomedir, .addGroup], false)
  else if !b.addUserOk then ([.makeHomedir, .addGroup, .addUser], false)
  else if !b.addShadowOk then ([.makeHomedir, .addGroup, .addUser, .addShadow], false)
  else ([.makeHomedir, .addGroup, .addUser, .addShadow], true)

/-- `run_scubainit` after environment ingestion: provisioning (when an
identity was supplied), root hook, privilege drop (when an identity was
supplied), umask, user hook (only when an identity was supplied), exec.
Returns the trace of events performed and whether the exec point was
reached. -/
def run_scubainit (ctx : Context) (b : Behavior) : List Event × Bool :=
  let (t1, ok1) :=
    match ctx.user_info with
    | some _ => provisionSteps b
    | none => ([], true)
  if !ok1 then (t1, false)
  else
    let (t2, ok2) := Context.call_hook b ctx.root_hook
    if !ok2 then (t1 ++ t2, false)
    else
      let (t3, ok3) :=
        match ctx.user_info with
        | some u =>
          let r := UserInfo.change_user b.sys u
          (r.calls.map Event.sysCall ++
             r.envSets.map (fun p => Event.envSet p.1 p.2), r.ok)
        | none => ([], true)
      if !ok3 then (t1 ++ t2 ++ t3, false)
      else
        let t4 :=
          match ctx.umask with
          | some m => [Event.setUmask m]
          | none => []
        let (t5, ok5) :=
          if ctx.user_info.isSome then Context.call_hook b ctx.user_hook
          else ([], true)
        if !ok5 then (t1 ++ t2 ++ t3 ++ t4 ++ t5, false)
        else (t1 ++ t2 ++ t3 ++ t4 ++ t5 ++ [Event.execProgram], true)

/-! ## Helper lemmas about `change_user` and `run_scubainit` -/

theorem change_user_ok_iff (sys : SysBehavior) (u : UserInfo) :
    (UserInfo.change_user sys u).ok = true ↔
      sys.setgroupsOk = true ∧ sys.setgidOk u.gid = true ∧
      sys.setuidOk u.uid = true := by
  cases hg : sys.setgroupsOk <;> cases hgid : sys.setgidOk u.gid <;>
    cases huid : sys.setuidOk u.uid <;>
    simp [UserInfo.change_user, hg, hgid, huid]

theorem change_user_ok_eq (sys : SysBehavior) (u : UserInfo)
    (h : (UserInfo.change_user sys u).ok = true) :
    UserInfo.change_user sys u =
      ⟨[.setgroupsClear, .setgid u.gid, .setuid u.uid],
       [("USER".toList, u.user), ("LOGNAME".toList, u.user),
        ("HOME".toList, u.home_dir)], true⟩ := by
  obtain ⟨hg, hgid, huid⟩ := (change_user_ok_iff sys u).mp h
  simp [UserInfo.change_user, hg, hgid, huid]

/-- C1: `change_user` invokes exactly the three privilege syscalls
clear-supplementary-groups, `setgid`, `setuid`, in that fixed order; a
failure of any of them stops the sequence immediately (no later syscall,
no environment rebinding) and returns an error. -/
theorem C1_change_user_order (sys : SysBehavior) (u : UserInfo) :
    ((UserInfo.change_user sys u).ok = true ↔
      sys.setgroupsOk = true ∧ sys.setgidOk u.gid = true ∧
      sys.setuidOk u.uid = true)
    ∧ ((UserInfo.change_user sys u).ok = true →
        (UserInfo.change_user sys u).calls =
          [.setgroupsClear, .setgid u.gid, .setuid u.uid])
    ∧ (sys.setgroupsOk = false →
        (UserInfo.change_user sys u).calls = [.setgroupsClear] ∧
        (UserInfo.change_user sys u).ok = false)
    ∧ (sys.setgroupsOk = true → sys.setgidOk u.gid = false →
        (UserInfo.change_user sys u).calls =
          [.setgroupsClear, .setgid u.gid] ∧
        (UserInfo.change_user sys u).ok = false)
    ∧ (sys.setgroupsOk = true → sys.setgidOk u.gid = true →
        sys.setuidOk u.uid = false →
        (UserInfo.change_user sys u).calls =
          [.setgroupsClear, .setgid u.gid, .setuid u.uid] ∧
        (UserInfo.change_user sys u).ok = false)
    ∧ ((UserInfo.change_user sys u).ok = false →
        (UserInfo.change_user sys u).envSets = []) := by
  cases hg : sys.setgroupsOk <;> cases hgid : sys.setgidOk u.gid <;>
    cases huid : sys.setuidOk u.uid <;>
    simp [UserInfo.change_user, hg, hgid, huid]

/-- Witness for C1 at a concrete identity and syscall behavior. -/
theorem C1_change_user_order_witness :
    (UserInfo.change_user ⟨true, fun _ => true, fun _ => false⟩
      ⟨1000, 1000, "moe".toList, "moe".toList⟩).calls =
      [.setgroupsClear, .setgid 1000, .setuid 1000] ∧
    (UserInfo.change_user ⟨true, fun _ => true, fun _ => false⟩
      ⟨1000, 1000, "moe".toList, "moe".toList⟩).envSets = [] := by
  have h := C1_change_user_order ⟨true, fun _ => true, fun _ => false⟩
    ⟨1000, 1000, "moe".toList, "moe".toList⟩
  refine ⟨(h.2.2.2.2.1 rfl rfl rfl).1, h.2.2.2.2.2 ?_⟩
  exact (h.2.2.2.2.1 rfl rfl rfl).2

/-- The umask trace of `run_scubainit` (`Context::set_umask`). -/
def umaskTrace (umask : Option Nat) : List Event :=
  match umask with
  | some m => [Event.setUmask m]
  | none => []

theorem run_scubainit_trace_none (ctx : Context) (b : Behavior)
    (hui : ctx.user_info = none) :
    ((Context.call_hook b ctx.root_hook).2 = false →
      run_scubainit ctx b = ((Context.call_hook b ctx.root_hook).1, false)) ∧
    ((Context.call_hook b ctx.root_hook).2 = true →
      run_scubainit ctx b =
        ((Context.call_hook b ctx.root_hook).1 ++ umaskTrace ctx.umask ++
          [Event.execProgram], true)) := by
  rcases hch : Context.call_hook b ctx.root_hook with ⟨t2, ok2⟩
  unfold run_scubainit
  rw [hui, hch]
  cases ok2 with
  | false => simp [umaskTrace]
  | true => simp [umaskTrace, hui]

theorem run_scubainit_trace_some (ctx : Context) (b : Behavior) (u : UserInfo)
    (hui : ctx.user_info = some u)
    (hp : (provisionSteps b).2 = true)
    (hr : (Context.call_hook b ctx.root_hook).2 = true)
    (hc : (UserInfo.change_user b.sys u).ok = true) :
    ∃ tail, (run_scubainit ctx b).1 =
      (provisionSteps b).1 ++ (Context.call_hook b ctx.root_hook).1 ++
      ((UserInfo.change_user b.sys u).calls.map Event.sysCall ++
        (UserInfo.change_user b.sys u).envSets.map
          (fun p => Event.envSet p.1 p.2)) ++
      umaskTrace ctx.umask ++ (Context.call_hook b ctx.user_hook).1 ++ tail ∧
      (tail = [] ∨ tail = [Event.execProgram]) := by
  rcases hps : provisionSteps b with ⟨t1, ok1⟩
  rcases hch : Context.call_hook b ctx.root_hook with ⟨t2, ok2⟩
  rcases huh : Context.call_hook b ctx.user_hook with ⟨t5, ok5⟩
  rcases hcu : UserInfo.change_user b.sys u with ⟨calls3, envs3, ok3⟩
  rw [hps] at hp
  rw [hch] at hr
  rw [hcu] at hc
  simp only at hp hr hc
  subst hp hr hc
  unfold run_scubainit
  rw [hui]
  simp only [hps, hch, hcu, huh, Bool.not_true, Bool.false_eq_true, if_false,
    ite_false, Option.isSome_some, if_true, ite_true, umaskTrace]
  cases ok5 with
  | false =>
    refine ⟨[], ?_, Or.inl rfl⟩
    simp
  | true =>
    refine ⟨[Event.execProgram], ?_, Or.inr rfl⟩
    simp

theorem provisionSteps_ok_eq (b : Behavior) (h : (provisionSteps b).2 = true) :
    provisionSteps b =
      ([.makeHomedir, .addGroup, .addUser, .addShadow], true) := by
  unfold provisionSteps at h ⊢
  cases hmk : b.makeHomedirOk <;> cases hag : b.addGroupOk <;>
    cases hau : b.addUserOk <;> cases hsh : b.addShadowOk <;> simp_all

theorem setUmask_not_mem_call_hook (b : Behavior) (p : Option Str) (m : Nat) :
    Event.setUmask m ∉ (Context.call_hook b p).1 := by
  cases p <;> simp [Context.call_hook]

theorem runHook_mem_call_hook (b : Behavior) (h : Option Str) (p : Str) :
    Event.runHook p ∈ (Context.call_hook b h).1 ↔ h = some p := by
  cases h <;> simp [Context.call_hook, eq_comm]

theorem setUmask_mem_umaskTrace (um : Option Nat) (m : Nat) :
    Event.setUmask m ∈ umaskTrace um ↔ um = some m := by
  cases um <;> simp [umaskTrace, eq_comm]

/-- C9: after a successful privilege drop, `USER`, `LOGNAME` and `HOME` are
overwritten to the new identity's user name and computed home path; the
configured umask is applied whether or not an identity tuple was supplied
(and not applied when none was configured); and the user-context post-hook
runs only when an identity switch occurred — with no identity tuple, no
hook other than the root hook ever runs. -/
theorem C9_env_umask_posthook (ctx : Context) (b : Behavior) (u : UserInfo) :
    (ctx.user_info = some u → (provisionSteps b).2 = true →
      (Context.call_hook b ctx.root_hook).2 = true →
      (UserInfo.change_user b.sys u).ok = true →
      Event.envSet "USER".toList u.user ∈ (run_scubainit ctx b).1 ∧
      Event.envSet "LOGNAME".toList u.user ∈ (run_scubainit ctx b).1 ∧
      Event.envSet "HOME".toList u.home_dir ∈ (run_scubainit ctx b).1)
    ∧ (ctx.user_info = some u → (provisionSteps b).2 = true →
        (Context.call_hook b ctx.root_hook).2 = true →
        (UserInfo.change_user b.sys u).ok = true →
        ∀ m, (Event.setUmask m ∈ (run_scubainit ctx b).1 ↔ ctx.umask = some m))
    ∧ (ctx.user_info = none → (Context.call_hook b ctx.root_hook).2 = true →
        ∀ m, (Event.setUmask m ∈ (run_scubainit ctx b).1 ↔ ctx.umask = some m))
    ∧ (ctx.user_info = none →
        ∀ p, Event.runHook p ∈ (run_scubainit ctx b).1 → ctx.root_hook = some p)
    ∧ (ctx.user_info = some u → (provisionSteps b).2 = true →
        (Context.call_hook b ctx.root_hook).2 = true →
        (UserInfo.change_user b.sys u).ok = true →
        ∀ p, ctx.user_hook = some p →
          Event.runHook p ∈ (run_scubainit ctx b).1) := by
  refine ⟨?_, ?_, ?_, ?_, ?_⟩
  · intro hui hp hr hc
    obtain ⟨tail, htr, _⟩ := run_scubainit_trace_some ctx b u hui hp hr hc
    rw [htr, change_user_ok_eq b.sys u hc]
    simp
  · intro hui hp hr hc m
    obtain ⟨tail, htr, htail⟩ := run_scubainit_trace_some ctx b u hui hp hr hc
    rw [htr, change_user_ok_eq b.sys u hc, provisionSteps_ok_eq b hp]
    rcases htail with rfl | rfl <;>
      simp [setUmask_mem_umaskTrace, setUmask_not_mem_call_hook]
  · intro hui hr m
    rw [(run_scubainit_trace_none ctx b hui).2 hr]
    simp [setUmask_mem_umaskTrace, setUmask_not_mem_call_hook]
  · intro hui p hmem
    have hn := run_scubainit_trace_none ctx b hui
    cases hr : (Context.call_hook b ctx.root_hook).2 with
    | false =>
      rw [hn.1 hr] at hmem
      exact (runHook_mem_call_hook b ctx.root_hook p).mp hmem
    | true =>
      rw [hn.2 hr] at hmem
      simp only [List.mem_append, List.mem_singleton] at hmem
      rcases hmem with (hmem | hum) | hex
      · exact (runHook_mem_call_hook b ctx.root_hook p).mp hmem
      · exact absurd hum (by cases hum2 : ctx.umask <;> simp [umaskTrace])
      · exact absurd hex (by simp)
  · intro hui hp hr hc p hup
    obtain ⟨tail, htr, _⟩ := run_scubainit_trace_some ctx b u hui hp hr hc
    rw [htr]
    have : Event.runHook p ∈ (Context.call_hook b ctx.user_hook).1 :=
      (runHook_mem_call_hook b ctx.user_hook p).mpr hup
    simp [this]

/-- Witness for C9 at a concrete context and behavior. -/
theorem C9_env_umask_posthook_witness :
    Event.envSet "USER".toList "moe".toList ∈
      (run_scubainit
        ⟨some ⟨1000, 1000, "moe".toList, "moe".toList⟩, some 18, none, none⟩
        ⟨⟨true, fun _ => true, fun _ => true⟩, true, true, true, true,
          fun _ => true⟩).1 := by
  exact ((C9_env_umask_posthook
    ⟨some ⟨1000, 1000, "moe".toList, "moe".toList⟩, some 18, none, none⟩
    ⟨⟨true, fun _ => true, fun _ => true⟩, true, true, true, true,
      fun _ => true⟩
    ⟨1000, 1000, "moe".toList, "moe".toList⟩).1 rfl rfl rfl rfl).1

/-! ## Round-trip of the three record codecs (C2) -/

instance optionBAllDecidable (p : Nat → Prop) [DecidablePred p]
    (o : Option Nat) : Decidable (∀ n ∈ o, p n) := by
  cases o with
  | none => exact isTrue (by simp)
  | some k =>
    by_cases h : p k
    · exact isTrue (by simpa using h)
    · exact isFalse (by simpa using h)

instance (e : PasswdEntry) : Decidable e.Valid := by
  unfold PasswdEntry.Valid
  infer_instance

instance (e : GroupEntry) : Decidable e.Valid := by
  unfold GroupEntry.Valid
  infer_instance

instance (e : ShadowEntry) : Decidable e.Valid := by
  unfold ShadowEntry.Valid
  infer_instance

theorem split_csv_str_joinChar (ms : List Str) (h : ∀ m ∈ ms, ',' ∉ m)
    (hne : ms ≠ [[]]) : split_csv_str (joinChar ',' ms) = ms := by
  cases ms with
  | nil => rfl
  | cons m ms' =>
    have hjne : joinChar ',' (m :: ms') ≠ [] := by
      cases ms' with
      | nil =>
        simp only [joinChar]
        intro hcon
        exact hne (by rw [hcon])
      | cons q qs => simp [joinChar]
    unfold split_csv_str
    rw [if_neg hjne]
    exact splitOnChar_joinChar ',' (m :: ms') (by simp) h

theorem colon_not_mem_tsoe (v : Option Nat) : ':' ∉ to_string_or_empty v := by
  cases v with
  | none => simp [to_string_or_empty]
  | some n => exact colon_not_mem_natToChars n

theorem maybe_parse_tsoe (v : Option Nat) (h : ∀ n ∈ v, n < 4294967296) :
    maybe_parse (to_string_or_empty v) = .ok v := by
  cases v with
  | none => rfl
  | some n =>
    unfold to_string_or_empty maybe_parse
    rw [if_neg (natToChars_ne_nil n), readU32_natToChars n (h n rfl)]

theorem passwd_from_to (e : PasswdEntry) (h : e.Valid) :
    PasswdEntry.from_line e.to_line = .ok e := by
  obtain ⟨h1, h2, h3, h4, h5, h6, h7⟩ := h
  unfold PasswdEntry.from_line PasswdEntry.to_line
  rw [splitOnChar_joinChar ':' _ (by simp) ?hfields]
  case hfields =>
    intro p hp
    simp only [List.mem_cons, List.not_mem_nil, or_false] at hp
    rcases hp with rfl | rfl | rfl | rfl | rfl | rfl | rfl
    · exact h1
    · exact h2
    · exact colon_not_mem_natToChars e.uid
    · exact colon_not_mem_natToChars e.gid
    · exact h5
    · exact h6
    · exact h7
  simp [PasswdEntry.fromFields, next_field, parse_u32, bind, Except.bind, pure,
    Except.pure, Functor.map, Except.map, readU32_natToChars e.uid h3,
    readU32_natToChars e.gid h4]

theorem group_from_to (e : GroupEntry) (h : e.Valid) :
    GroupEntry.from_line e.to_line = .ok e := by
  obtain ⟨h1, h2, h3, h4, h5⟩ := h
  unfold GroupEntry.from_line GroupEntry.to_line
  rw [splitOnChar_joinChar ':' _ (by simp) ?hfields]
  case hfields =>
    intro p hp
    simp only [List.mem_cons, List.not_mem_nil, or_false] at hp
    rcases hp with rfl | rfl | rfl | rfl
    · exact h1
    · exact h2
    · exact colon_not_mem_natToChars e.gid
    · intro hcol
      rcases mem_joinChar hcol with hc | ⟨m, hm, hcm⟩
      · exact absurd hc (by decide)
      · exact (h4 m hm).1 hcm
  simp [GroupEntry.fromFields, next_field, parse_u32, bind, Except.bind, pure,
    Except.pure, Functor.map, Except.map, readU32_natToChars e.gid h3,
    split_csv_str_joinChar e.members (fun m hm => (h4 m hm).2) h5]

theorem shadow_from_to (e : ShadowEntry) (h : e.Valid) :
    ShadowEntry.from_line e.to_line = .ok e := by
  obtain ⟨h1, h2, h3, h4, h5, h6, h7, h8⟩ := h
  unfold ShadowEntry.from_line ShadowEntry.to_line
  rw [splitOnChar_joinChar ':' _ (by simp) ?hfields]
  case hfields =>
    intro p hp
    simp only [List.mem_cons, List.not_mem_nil, or_false] at hp
    rcases hp with rfl | rfl | rfl | rfl | rfl | rfl | rfl | rfl | rfl
    · exact h1
    · exact h2
    · exact colon_not_mem_tsoe _
    · exact colon_not_mem_tsoe _
    · exact colon_not_mem_tsoe _
    · exact colon_not_mem_tsoe _
    · exact colon_not_mem_tsoe _
    · exact colon_not_mem_tsoe _
    · simp
  simp [ShadowEntry.fromFields, next_field, bind, Except.bind, pure, Except.pure,
    Functor.map, Except.map,
    maybe_parse_tsoe _ h3, maybe_parse_tsoe _ h4, maybe_parse_tsoe _ h5,
    maybe_parse_tsoe _ h6, maybe_parse_tsoe _ h7, maybe_parse_tsoe _ h8]

/-- C2: for every valid constructed passwd, group and shadow record,
parsing the serialized line reproduces the record. -/
theorem C2_roundtrip (p : PasswdEntry) (g : GroupEntry) (s : ShadowEntry)
    (hp : p.Valid) (hg : g.Valid) (hs : s.Valid) :
    PasswdEntry.from_line p.to_line = .ok p ∧
    GroupEntry.from_line g.to_line = .ok g ∧
    ShadowEntry.from_line s.to_line = .ok s :=
  ⟨passwd_from_to p hp, group_from_to g hg, shadow_from_to s hs⟩

/-- Witness for C2 at the sample records of the repository's unit tests. -/
theorem C2_roundtrip_witness :
    PasswdEntry.from_line
      (PasswdEntry.to_line ⟨"joe".toList, "x".toList, 1234, 5678,
        "Joe Blow".toList, "/home/joe".toList, "/bin/bash".toList⟩) =
      .ok ⟨"joe".toList, "x".toList, 1234, 5678, "Joe Blow".toList,
        "/home/joe".toList, "/bin/bash".toList⟩ ∧
    GroupEntry.from_line
      (GroupEntry.to_line ⟨"foo".toList, "x".toList, 1234,
        ["moe".toList, "larry".toList, "shemp".toList]⟩) =
      .ok ⟨"foo".toList, "x".toList, 1234,
        ["moe".toList, "larry".toList, "shemp".toList]⟩ ∧
    ShadowEntry.from_line
      (ShadowEntry.to_line ⟨"joe".toList, "*".toList, some 18881, some 0,
        some 99999, some 7, none, none⟩) =
      .ok ⟨"joe".toList, "*".toList, some 18881, some 0, some 99999, some 7,
        none, none⟩ := by
  exact C2_roundtrip _ _ _ (by decide) (by decide) (by decide)

/-! ## The `add_group` conflict policy (C3) -/

theorem add_group_loop_no_name_match (name : Str) (gid : Nat)
    (newEnt : GroupEntry) (gs : List GroupEntry)
    (h : ∀ g ∈ gs, g.name ≠ name) (w : Bool) :
    add_group_loop name gid newEnt w (gs.map Except.ok) =
      .ok ⟨[newEnt], w || gs.any (fun g => g.gid == gid)⟩ := by
  induction gs generalizing w with
  | nil => simp [add_group_loop]
  | cons g gs ih =>
    have hg := h g (by simp)
    simp only [List.map_cons, add_group_loop, if_neg hg, List.any_cons]
    by_cases hgid : g.gid = gid
    · rw [if_pos hgid, ih (fun g' hg' => h g' (by simp [hg']))]
      simp [hgid]
    · rw [if_neg hgid, ih (fun g' hg' => h g' (by simp [hg']))]
      have hb : (g.gid == gid) = false := beq_eq_false_iff_ne.mpr hgid
      rw [hb]
      simp

theorem add_group_loop_name_gid_match (name : Str) (gid : Nat)
    (newEnt : GroupEntry) (gs : List GroupEntry)
    (hnod : (gs.map GroupEntry.name).Nodup)
    (hex : ∃ g ∈ gs, g.name = name ∧ g.gid = gid) (w : Bool) :
    ∃ w', add_group_loop name gid newEnt w (gs.map Except.ok) =
      .ok ⟨[], w'⟩ := by
  induction gs generalizing w with
  | nil => simp at hex
  | cons g gs ih =>
    obtain ⟨g0, hg0mem, hg0n, hg0g⟩ := hex
    rcases List.mem_cons.mp hg0mem with rfl | hmem
    · exact ⟨w, by simp [add_group_loop, hg0n, hg0g]⟩
    · have hhead : g.name ≠ name := by
        intro hcon
        have hmm : g0.name ∈ gs.map GroupEntry.name :=
          List.mem_map_of_mem _ hmem
        rw [hg0n, ← hcon] at hmm
        exact (List.nodup_cons.mp hnod).1 hmm
      simp only [List.map_cons, add_group_loop, if_neg hhead]
      by_cases hgid : g.gid = gid
      · rw [if_pos hgid]
        exact ih (List.nodup_cons.mp hnod).2 ⟨g0, hmem, hg0n, hg0g⟩ true
      · rw [if_neg hgid]
        exact ih (List.nodup_cons.mp hnod).2 ⟨g0, hmem, hg0n, hg0g⟩ w

theorem add_group_loop_name_conflict (name : Str) (gid : Nat)
    (newEnt : GroupEntry) (gs : List GroupEntry)
    (hnod : (gs.map GroupEntry.name).Nodup)
    (hex : ∃ g ∈ gs, g.name = name ∧ g.gid ≠ gid) (w : Bool) :
    add_group_loop name gid newEnt w (gs.map Except.ok) =
      .error .conflict := by
  induction gs generalizing w with
  | nil => simp at hex
  | cons g gs ih =>
    obtain ⟨g0, hg0mem, hg0n, hg0g⟩ := hex
    rcases List.mem_cons.mp hg0mem with rfl | hmem
    · simp [add_group_loop, hg0n, hg0g]
    · have hhead : g.name ≠ name := by
        intro hcon
        have hmm : g0.name ∈ gs.map GroupEntry.name :=
          List.mem_map_of_mem _ hmem
        rw [hg0n, ← hcon] at hmm
        exact (List.nodup_cons.mp hnod).1 hmm
      simp only [List.map_cons, add_group_loop, if_neg hhead]
      by_cases hgid : g.gid = gid
      · rw [if_pos hgid]
        exact ih (List.nodup_cons.mp hnod).2 ⟨g0, hmem, hg0n, hg0g⟩ true
      · rw [if_neg hgid]
        exact ih (List.nodup_cons.mp hnod).2 ⟨g0, hmem, hg0n, hg0g⟩ w

/-- C3: `add_group` against a well-formed existing group file (pairwise
distinct group names): same name and same gid → success, nothing appended;
same name, different gid → conflict error, nothing appended; same gid
under a different name (and no name match) → success with the non-fatal
warning, the new record still appended; no match at all → success, exactly
one new record, carrying the invalid-password placeholder and an empty
member list. -/
theorem C3_ensure_group (u : UserInfo) (gs : List GroupEntry)
    (hnod : (gs.map GroupEntry.name).Nodup) :
    ((∃ g ∈ gs, g.name = u.group ∧ g.gid = u.gid) →
      ∃ w, u.add_group (gs.map Except.ok) = .ok ⟨[], w⟩)
    ∧ ((∃ g ∈ gs, g.name = u.group ∧ g.gid ≠ u.gid) →
      u.add_group (gs.map Except.ok) = .error .conflict)
    ∧ ((∀ g ∈ gs, g.name ≠ u.group) → (∃ g ∈ gs, g.gid = u.gid) →
      u.add_group (gs.map Except.ok) = .ok ⟨[u.newGroup], true⟩)
    ∧ ((∀ g ∈ gs, g.name ≠ u.group ∧ g.gid ≠ u.gid) →
      u.add_group (gs.map Except.ok) = .ok ⟨[u.newGroup], false⟩)
    ∧ u.newGroup = ⟨u.group, INVALID_PASSWORD, u.gid, []⟩ := by
  refine ⟨?_, ?_, ?_, ?_, rfl⟩
  · intro hex
    exact add_group_loop_name_gid_match u.group u.gid u.newGroup gs hnod hex false
  · intro hex
    exact add_group_loop_name_conflict u.group u.gid u.newGroup gs hnod hex false
  · intro hall hex
    rw [UserInfo.add_group,
      add_group_loop_no_name_match u.group u.gid u.newGroup gs hall false]
    obtain ⟨g0, hg0, hgid⟩ := hex
    have : gs.any (fun g => g.gid == u.gid) = true :=
      List.any_eq_true.mpr ⟨g0, hg0, beq_iff_eq.mpr hgid⟩
    rw [this]
    simp
  · intro hall
    rw [UserInfo.add_group,
      add_group_loop_no_name_match u.group u.gid u.newGroup gs
        (fun g hg => (hall g hg).1) false]
    have : gs.any (fun g => g.gid == u.gid) = false := by
      rw [List.any_eq_false]
      intro g hg
      simp [beq_iff_eq]
      exact (hall g hg).2
    rw [this]
    simp

/-- Witness for C3: the spec's conflict law — a group named `g` with gid
10 exists, provisioning requests (`g`, 20), the operation fails with a
conflict error. -/
theorem C3_ensure_group_witness :
    UserInfo.add_group ⟨1000, 20, "u".toList, "g".toList⟩
      [Except.ok ⟨"g".toList, "x".toList, 10, []⟩] = .error .conflict := by
  refine (C3_ensure_group ⟨1000, 20, "u".toList, "g".toList⟩
    [⟨"g".toList, "x".toList, 10, []⟩] (by decide)).2.1 ?_
  exact ⟨⟨"g".toList, "x".toList, 10, []⟩, by simp, rfl, by decide⟩

/-! ## Idempotence of the provisioning scans (C4) -/

theorem add_group_loop_idem (name : Str) (gid : Nat) (newEnt : GroupEntry)
    (hn : newEnt.name = name) (hg : newEnt.gid = gid) :
    ∀ (items : List (Except ReadEntryError GroupEntry)) (w : Bool)
      (out : AddOutcome GroupEntry),
      add_group_loop name gid newEnt w items = .ok out →
      ∃ w', add_group_loop name gid newEnt w
        (items ++ out.appended.map Except.ok) = .ok ⟨[], w'⟩ := by
  intro items
  induction items with
  | nil =>
    intro w out h
    simp only [add_group_loop, Except.ok.injEq] at h
    subst h
    refine ⟨w, ?_⟩
    simp [add_group_loop, hn, hg]
  | cons item rest ih =>
    intro w out h
    cases item with
    | error e => simp [add_group_loop] at h
    | ok g =>
      by_cases hname : g.name = name
      · by_cases hgid2 : g.gid = gid
        · simp only [add_group_loop, if_pos hname, if_pos hgid2,
            Except.ok.injEq] at h
          subst h
          refine ⟨w, ?_⟩
          simp [add_group_loop, hname, hgid2]
        · simp [add_group_loop, if_pos hname, if_neg hgid2] at h
      · simp only [add_group_loop, if_neg hname] at h
        by_cases hgid2 : g.gid = gid
        · rw [if_pos hgid2] at h
          obtain ⟨w', hw⟩ := ih true out h
          refine ⟨w', ?_⟩
          simp only [List.cons_append, add_group_loop, if_neg hname,
            if_pos hgid2]
          exact hw
        · rw [if_neg hgid2] at h
          obtain ⟨w', hw⟩ := ih w out h
          refine ⟨w', ?_⟩
          simp only [List.cons_append, add_group_loop, if_neg hname,
            if_neg hgid2]
          exact hw

theorem add_user_loop_idem (name : Str) (uid : Nat) (newEnt : PasswdEntry)
    (hn : newEnt.name = name) (hu : newEnt.uid = uid) :
    ∀ (items : List (Except ReadEntryError PasswdEntry)) (w : Bool)
      (out : AddOutcome PasswdEntry),
      add_user_loop name uid newEnt w items = .ok out →
      ∃ w', add_user_loop name uid newEnt w
        (items ++ out.appended.map Except.ok) = .ok ⟨[], w'⟩ := by
  intro items
  induction items with
  | nil =>
    intro w out h
    simp only [add_user_loop, Except.ok.injEq] at h
    subst h
    refine ⟨w, ?_⟩
    simp [add_user_loop, hn, hu]
  | cons item rest ih =>
    intro w out h
    cases item with
    | error e => simp [add_user_loop] at h
    | ok p =>
      by_cases hname : p.name = name
      · by_cases huid2 : p.uid = uid
        · simp only [add_user_loop, if_pos hname, if_pos huid2,
            Except.ok.injEq] at h
          subst h
          refine ⟨w, ?_⟩
          simp [add_user_loop, hname, huid2]
        · simp [add_user_loop, if_pos hname, if_neg huid2] at h
      · simp only [add_user_loop, if_neg hname] at h
        by_cases huid2 : p.uid = uid
        · rw [if_pos huid2] at h
          obtain ⟨w', hw⟩ := ih true out h
          refine ⟨w', ?_⟩
          simp only [List.cons_append, add_user_loop, if_neg hname,
            if_pos huid2]
          exact hw
        · rw [if_neg huid2] at h
          obtain ⟨w', hw⟩ := ih w out h
          refine ⟨w', ?_⟩
          simp only [List.cons_append, add_user_loop, if_neg hname,
            if_neg huid2]
          exact hw

theorem add_shadow_loop_idem (name : Str) (newEnt : ShadowEntry)
    (hn : newEnt.name = name) :
    ∀ (items : List (Except ReadEntryError ShadowEntry))
      (out : AddOutcome ShadowEntry),
      add_shadow_loop name newEnt items = .ok out →
      add_shadow_loop name newEnt (items ++ out.appended.map Except.ok) =
        .ok ⟨[], false⟩ := by
  intro items
  induction items with
  | nil =>
    intro out h
    simp only [add_shadow_loop, Except.ok.injEq] at h
    subst h
    simp [add_shadow_loop, hn]
  | cons item rest ih =>
    intro out h
    cases item with
    | error e => simp [add_shadow_loop] at h
    | ok sp =>
      by_cases hname : sp.name = name
      · simp only [add_shadow_loop, if_pos hname, Except.ok.injEq] at h
        subst h
        simp [add_shadow_loop, hname]
      · simp only [add_shadow_loop, if_neg hname] at h
        have hw := ih out h
        simp only [List.cons_append, add_shadow_loop, if_neg hname]
        exact hw

/-- Record-stream-level idempotence: whenever a run of
`add_group` / `add_user` / `add_shadow` succeeded, re-running each scan
over its items plus the records it appended succeeds and appends
nothing. -/
theorem provision_items_idem (u : UserInfo)
    (gItems : List (Except ReadEntryError GroupEntry))
    (pItems : List (Except ReadEntryError PasswdEntry))
    (sItems : List (Except ReadEntryError ShadowEntry))
    (gOut : AddOutcome GroupEntry) (pOut : AddOutcome PasswdEntry)
    (sOut : AddOutcome ShadowEntry)
    (hg : u.add_group gItems = .ok gOut)
    (hp : u.add_user pItems = .ok pOut)
    (hs : u.add_shadow sItems = .ok sOut) :
    (∃ w, u.add_group (gItems ++ gOut.appended.map Except.ok) = .ok ⟨[], w⟩)
    ∧ (∃ w, u.add_user (pItems ++ pOut.appended.map Except.ok) = .ok ⟨[], w⟩)
    ∧ u.add_shadow (sItems ++ sOut.appended.map Except.ok) = .ok ⟨[], false⟩ :=
  ⟨add_group_loop_idem u.group u.gid u.newGroup rfl rfl gItems false gOut hg,
   add_user_loop_idem u.user u.uid u.newPasswd rfl rfl pItems false pOut hp,
   add_shadow_loop_idem u.user u.newShadow rfl sItems sOut hs⟩

/-! ### File-level idempotence

The byte-level claim needs the initial file to be well formed: a
newline-terminated sequence of newline-free lines (`linesContent`), and an
identity whose names are free of the format's delimiters.  Without that,
the appended record merges into an unterminated last line or reads back as
a comment, and a second run appends again (see the counterexample). -/

theorem add_group_loop_appended (name : Str) (gid : Nat)
    (newEnt : GroupEntry) :
    ∀ (items : List (Except ReadEntryError GroupEntry)) (w : Bool)
      (out : AddOutcome GroupEntry),
      add_group_loop name gid newEnt w items = .ok out →
      out.appended = [] ∨ out.appended = [newEnt] := by
  intro items
  induction items with
  | nil =>
    intro w out h
    simp only [add_group_loop, Except.ok.injEq] at h
    subst h
    exact Or.inr rfl
  | cons item rest ih =>
    intro w out h
    cases item with
    | error e => simp [add_group_loop] at h
    | ok g =>
      by_cases hname : g.name = name
      · by_cases hgid : g.gid = gid
        · simp only [add_group_loop, if_pos hname, if_pos hgid,
            Except.ok.injEq] at h
          subst h
          exact Or.inl rfl
        · simp [add_group_loop, if_pos hname, if_neg hgid] at h
      · simp only [add_group_loop, if_neg hname] at h
        by_cases hgid : g.gid = gid
        · rw [if_pos hgid] at h
          exact ih true out h
        · rw [if_neg hgid] at h
          exact ih w out h

theorem add_user_loop_appended (name : Str) (uid : Nat)
    (newEnt : PasswdEntry) :
    ∀ (items : List (Except ReadEntryError PasswdEntry)) (w : Bool)
      (out : AddOutcome PasswdEntry),
      add_user_loop name uid newEnt w items = .ok out →
      out.appended = [] ∨ out.appended = [newEnt] := by
  intro items
  induction items with
  | nil =>
    intro w out h
    simp only [add_user_loop, Except.ok.injEq] at h
    subst h
    exact Or.inr rfl
  | cons item rest ih =>
    intro w out h
    cases item with
    | error e => simp [add_user_loop] at h
    | ok p =>
      by_cases hname : p.name = name
      · by_cases huid : p.uid = uid
        · simp only [add_user_loop, if_pos hname, if_pos huid,
            Except.ok.injEq] at h
          subst h
          exact Or.inl rfl
        · simp [add_user_loop, if_pos hname, if_neg huid] at h
      · simp only [add_user_loop, if_neg hname] at h
        by_cases huid : p.uid = uid
        · rw [if_pos huid] at h
          exact ih true out h
        · rw [if_neg huid] at h
          exact ih w out h

theorem add_shadow_loop_appended (name : Str) (newEnt : ShadowEntry) :
    ∀ (items : List (Except ReadEntryError ShadowEntry))
      (out : AddOutcome ShadowEntry),
      add_shadow_loop name newEnt items = .ok out →
      out.appended = [] ∨ out.appended = [newEnt] := by
  intro items
  induction items with
  | nil =>
    intro out h
    simp only [add_shadow_loop, Except.ok.injEq] at h
    subst h
    exact Or.inr rfl
  | cons item rest ih =>
    intro out h
    cases item with
    | error e => simp [add_shadow_loop] at h
    | ok sp =>
      by_cases hname : sp.name = name
      · simp only [add_shadow_loop, if_pos hname, Except.ok.injEq] at h
        subst h
        exact Or.inl rfl
      · simp only [add_shadow_loop, if_neg hname] at h
        exact ih out h

/-- A well-formed account file: each line newline-terminated, no line
containing a newline of its own. -/
def linesContent (ls : List Str) : Str :=
  (ls.map (fun l => l ++ ['\n'])).flatten

theorem linesContent_append (ls : List Str) (x : Str) :
    linesContent (ls ++ [x]) = linesContent ls ++ (x ++ ['\n']) := by
  simp [linesContent]

theorem dropLastEmpty_cons_cons (a b : Str) (bs : List Str) :
    dropLastEmpty (a :: b :: bs) = a :: dropLastEmpty (b :: bs) := by
  unfold dropLastEmpty
  rw [List.getLast?_cons_cons]
  cases hlast : List.getLast? (b :: bs) with
  | none => rfl
  | some last =>
    cases last with
    | nil => rfl
    | cons c cs => rfl

/-- `read_line` on a well-formed file yields exactly its lines. -/
theorem fileLines_linesContent (ls : List Str) (h : ∀ l ∈ ls, '\n' ∉ l) :
    fileLines (linesContent ls) = ls := by
  induction ls with
  | nil => rfl
  | cons l rest ih =>
    unfold linesContent fileLines at *
    simp only [List.map_cons, List.flatten_cons]
    rw [List.append_assoc, List.singleton_append,
      splitOnChar_append_cons '\n' l _ (h l (by simp))]
    have hne := splitOnChar_ne_nil '\n'
      (List.flatten (rest.map (fun l => l ++ ['\n'])))
    obtain ⟨b, bs, hbs⟩ := List.exists_cons_of_ne_nil hne
    rw [hbs, dropLastEmpty_cons_cons, ← hbs,
      ih (fun l' hl' => h l' (List.mem_cons_of_mem l hl'))]

theorem trimEnd_append_of_ne (xs ys : Str) (hy : ys ≠ [])
    (h : trimEnd ys = ys) : trimEnd (xs ++ ys) = xs ++ ys := by
  have h' : List.dropWhile isWhitespaceChar ys.reverse = ys.reverse := by
    have hc := congrArg List.reverse h
    simpa [trimEnd] using hc
  have hne : (List.dropWhile isWhitespaceChar ys.reverse).isEmpty = false := by
    rw [h']
    cases hys : ys.reverse with
    | nil => exact absurd (by simpa using hys) hy
    | cons c cs => rfl
  unfold trimEnd
  rw [List.reverse_append, List.dropWhile_append, hne]
  simp [h']

theorem startsWithHash_field (xs ys : Str)
    (h : startsWithHash xs = false) :
    startsWithHash (xs ++ ':' :: ys) = false := by
  cases xs with
  | nil => rfl
  | cons c rest => exact h

/-- Any non-trivial colon join ends in its last part, preceded by a
colon. -/
theorem joinChar_decomp (c : Char) :
    ∀ (ps : List Str) (last : Str), ps ≠ [] →
      ∃ xs, joinChar c (ps ++ [last]) = xs ++ c :: last := by
  intro ps
  induction ps with
  | nil => intro last hcon; exact absurd rfl hcon
  | cons p ps ih =>
    intro last _
    cases ps with
    | nil => exact ⟨p, rfl⟩
    | cons q qs =>
      obtain ⟨xs, hxs⟩ := ih last (by simp)
      refine ⟨p ++ c :: xs, ?_⟩
      show p ++ c :: joinChar c ((q :: qs) ++ [last]) = (p ++ c :: xs) ++ c :: last
      rw [hxs]
      simp

theorem mem_home_dir_cases {ch : Char} (u : UserInfo)
    (h : ch ∈ u.home_dir) : ch ∈ u.user ∨ ch ∈ USER_HOME ∨ ch = '/' := by
  unfold UserInfo.home_dir at h
  split at h
  · exact Or.inl (by assumption)
  · rcases List.mem_append.mp h with h1 | h2
    · exact Or.inr (Or.inl h1)
    · rcases List.mem_cons.mp h2 with h3 | h4
      · exact Or.inr (Or.inr h3)
      · exact Or.inl h4

theorem not_mem_home_dir {ch : Char} (u : UserInfo) (hu : ch ∉ u.user)
    (hh : ch ∉ USER_HOME) (hs : ch ≠ '/') : ch ∉ u.home_dir := by
  intro hmem
  rcases mem_home_dir_cases u hmem with h1 | h2 | h3
  · exact hu h1
  · exact hh h2
  · exact hs h3

theorem newline_not_mem_group_to_line (u : UserInfo)
    (hn : '\n' ∉ u.group) : '\n' ∉ GroupEntry.to_line u.newGroup := by
  intro hmem
  unfold GroupEntry.to_line UserInfo.newGroup at hmem
  rcases mem_joinChar hmem with hc | ⟨p, hp, hxp⟩
  · exact absurd hc (by decide)
  · simp only [List.mem_cons, List.not_mem_nil, or_false] at hp
    rcases hp with rfl | rfl | rfl | rfl
    · exact hn hxp
    · exact absurd hxp (by decide)
    · exact newline_not_mem_natToChars u.gid hxp
    · exact absurd hxp (by decide)

theorem newline_not_mem_passwd_to_line (u : UserInfo)
    (hn : '\n' ∉ u.user) : '\n' ∉ PasswdEntry.to_line u.newPasswd := by
  intro hmem
  unfold PasswdEntry.to_line UserInfo.newPasswd at hmem
  rcases mem_joinChar hmem with hc | ⟨p, hp, hxp⟩
  · exact absurd hc (by decide)
  · simp only [List.mem_cons, List.not_mem_nil, or_false] at hp
    rcases hp with rfl | rfl | rfl | rfl | rfl | rfl | rfl
    · exact hn hxp
    · exact absurd hxp (by decide)
    · exact newline_not_mem_natToChars u.uid hxp
    · exact newline_not_mem_natToChars u.gid hxp
    · exact hn hxp
    · exact not_mem_home_dir u hn (by decide) (by decide) hxp
    · exact absurd hxp (by decide)

theorem newline_not_mem_shadow_to_line (u : UserInfo)
    (hn : '\n' ∉ u.user) : '\n' ∉ ShadowEntry.to_line u.newShadow := by
  intro hmem
  unfold ShadowEntry.to_line UserInfo.newShadow at hmem
  simp only [to_string_or_empty] at hmem
  rcases mem_joinChar hmem with hc | ⟨p, hp, hxp⟩
  · exact absurd hc (by decide)
  · simp only [List.mem_cons, List.not_mem_nil, or_false] at hp
    rcases hp with rfl | rfl | rfl | rfl | rfl | rfl | rfl | rfl | rfl
    · exact hn hxp
    · exact absurd hxp (by decide)
    all_goals exact absurd hxp (List.not_mem_nil '\n')

/-- Appending one delimiter-clean, non-comment, untrimmable line to a
well-formed file appends exactly its parse result to the reader's
yield. -/
theorem readEntries_linesContent_append {α : Type}
    (f : Str → Except ReadEntryError α) (ls : List Str) (line : Str)
    (hls : ∀ l ∈ ls, '\n' ∉ l) (hline_n : '\n' ∉ line)
    (hhash : startsWithHash line = false) (htrim : trimEnd line = line)
    (hne : line ≠ []) :
    readEntries f (linesContent (ls ++ [line])) =
      readEntries f (linesContent ls) ++ [f line] := by
  unfold readEntries
  rw [fileLines_linesContent (ls ++ [line])
      (by
        intro l hl
        rcases List.mem_append.mp hl with h1 | h2
        · exact hls l h1
        · rw [List.mem_singleton.mp h2]
          exact hline_n),
    fileLines_linesContent ls hls, List.filterMap_append]
  congr 1
  simp [hhash, htrim, hne]

/-- File-level idempotence of `add_group` on a well-formed group file. -/
theorem add_group_file_idem (u : UserInfo) (ls : List Str)
    (hls : ∀ l ∈ ls, '\n' ∉ l)
    (hc : ':' ∉ u.group) (hn : '\n' ∉ u.group)
    (hh : startsWithHash u.group = false) (hgid : u.gid < 4294967296)
    (out : Str) (h1 : u.add_group_file (some (linesContent ls)) = .ok out) :
    u.add_group_file (some out) = .ok out := by
  unfold UserInfo.add_group_file at h1 ⊢
  simp only [Option.getD_some] at h1 ⊢
  cases hadd : u.add_group (readEntries GroupEntry.from_line (linesContent ls)) with
  | error e =>
    rw [hadd] at h1
    cases h1
  | ok outc =>
    rw [hadd] at h1
    simp only [Except.ok.injEq] at h1
    rcases add_group_loop_appended u.group u.gid u.newGroup _ false outc hadd
      with happ | happ
    · rw [happ] at h1
      simp only [List.map_nil, List.flatten_nil, List.append_nil] at h1
      subst h1
      rw [hadd]
      simp [happ]
    · rw [happ] at h1
      simp only [List.map_cons, List.map_nil, List.flatten_cons,
        List.flatten_nil, List.append_nil] at h1
      have hform : GroupEntry.to_line u.newGroup =
          joinChar ':' ([u.group, INVALID_PASSWORD, natToChars u.gid] ++ [[]]) := rfl
      obtain ⟨xs, hxs⟩ :=
        joinChar_decomp ':' [u.group, INVALID_PASSWORD, natToChars u.gid] []
          (by simp)
      have hlineEq : GroupEntry.to_line u.newGroup = xs ++ [':'] := by
        rw [hform, hxs]
      have htrim : trimEnd (GroupEntry.to_line u.newGroup) =
          GroupEntry.to_line u.newGroup := by
        rw [hlineEq]
        exact trimEnd_append_of_ne xs [':'] (by simp) rfl
      have hne : GroupEntry.to_line u.newGroup ≠ [] := by
        rw [hlineEq]
        simp
      have hhash : startsWithHash (GroupEntry.to_line u.newGroup) = false := by
        have hshape : GroupEntry.to_line u.newGroup =
            u.group ++ ':' :: joinChar ':'
              [INVALID_PASSWORD, natToChars u.gid, joinChar ',' []] := rfl
        rw [hshape]
        exact startsWithHash_field _ _ hh
      have hout : out = linesContent (ls ++ [GroupEntry.to_line u.newGroup]) := by
        rw [linesContent_append, ← h1]
      have hread : readEntries GroupEntry.from_line out =
          readEntries GroupEntry.from_line (linesContent ls) ++
            [GroupEntry.from_line (GroupEntry.to_line u.newGroup)] := by
        rw [hout]
        exact readEntries_linesContent_append GroupEntry.from_line ls _
          hls (newline_not_mem_group_to_line u hn) hhash htrim hne
      have hval : GroupEntry.Valid u.newGroup := by
        unfold GroupEntry.Valid UserInfo.newGroup
        exact ⟨hc, by show ':' ∉ INVALID_PASSWORD; decide, hgid, by simp,
          by simp⟩
      have hparse : GroupEntry.from_line (GroupEntry.to_line u.newGroup) =
          .ok u.newGroup := group_from_to u.newGroup hval
      obtain ⟨w', hw⟩ :=
        add_group_loop_idem u.group u.gid u.newGroup rfl rfl _ false outc hadd
      rw [happ] at hw
      rw [hread, hparse]
      rw [show u.add_group
          (readEntries GroupEntry.from_line (linesContent ls) ++
            [Except.ok u.newGroup]) = .ok ⟨[], w'⟩ from hw]
      simp

/-- File-level idempotence of `add_user` on a well-formed passwd file. -/
theorem add_user_file_idem (u : UserInfo) (ls : List Str)
    (hls : ∀ l ∈ ls, '\n' ∉ l)
    (hc : ':' ∉ u.user) (hn : '\n' ∉ u.user)
    (hh : startsWithHash u.user = false)
    (huid : u.uid < 4294967296) (hgid : u.gid < 4294967296)
    (out : Str) (h1 : u.add_user_file (some (linesContent ls)) = .ok out) :
    u.add_user_file (some out) = .ok out := by
  unfold UserInfo.add_user_file at h1 ⊢
  simp only [Option.getD_some] at h1 ⊢
  cases hadd : u.add_user (readEntries PasswdEntry.from_line (linesContent ls)) with
  | error e =>
    rw [hadd] at h1
    cases h1
  | ok outc =>
    rw [hadd] at h1
    simp only [Except.ok.injEq] at h1
    rcases add_user_loop_appended u.user u.uid u.newPasswd _ false outc hadd
      with happ | happ
    · rw [happ] at h1
      simp only [List.map_nil, List.flatten_nil, List.append_nil] at h1
      subst h1
      rw [hadd]
      simp [happ]
    · rw [happ] at h1
      simp only [List.map_cons, List.map_nil, List.flatten_cons,
        List.flatten_nil, List.append_nil] at h1
      have hform : PasswdEntry.to_line u.newPasswd =
          joinChar ':' ([u.user, INVALID_PASSWORD, natToChars u.uid,
            natToChars u.gid, u.user, u.home_dir] ++ [DEFAULT_SHELL]) := rfl
      obtain ⟨xs, hxs⟩ :=
        joinChar_decomp ':' [u.user, INVALID_PASSWORD, natToChars u.uid,
          natToChars u.gid, u.user, u.home_dir] DEFAULT_SHELL (by simp)
      have hlineEq : PasswdEntry.to_line u.newPasswd =
          xs ++ ':' :: DEFAULT_SHELL := by
        rw [hform, hxs]
      have htrim : trimEnd (PasswdEntry.to_line u.newPasswd) =
          PasswdEntry.to_line u.newPasswd := by
        rw [hlineEq]
        exact trimEnd_append_of_ne xs (':' :: DEFAULT_SHELL) (by simp) rfl
      have hne : PasswdEntry.to_line u.newPasswd ≠ [] := by
        rw [hlineEq]
        simp
      have hhash : startsWithHash (PasswdEntry.to_line u.newPasswd) = false := by
        have hshape : PasswdEntry.to_line u.newPasswd =
            u.user ++ ':' :: joinChar ':'
              [INVALID_PASSWORD, natToChars u.uid, natToChars u.gid,
                u.user, u.home_dir, DEFAULT_SHELL] := rfl
        rw [hshape]
        exact startsWithHash_field _ _ hh
      have hout : out = linesContent (ls ++ [PasswdEntry.to_line u.newPasswd]) := by
        rw [linesContent_append, ← h1]
      have hread : readEntries PasswdEntry.from_line out =
          readEntries PasswdEntry.from_line (linesContent ls) ++
            [PasswdEntry.from_line (PasswdEntry.to_line u.newPasswd)] := by
        rw [hout]
        exact readEntries_linesContent_append PasswdEntry.from_line ls _
          hls (newline_not_mem_passwd_to_line u hn) hhash htrim hne
      have hval : PasswdEntry.Valid u.newPasswd := by
        unfold PasswdEntry.Valid UserInfo.newPasswd
        exact ⟨hc, by show ':' ∉ INVALID_PASSWORD; decide, huid, hgid, hc,
          not_mem_home_dir u hc (by decide) (by decide),
          by show ':' ∉ DEFAULT_SHELL; decide⟩
      have hparse : PasswdEntry.from_line (PasswdEntry.to_line u.newPasswd) =
          .ok u.newPasswd := passwd_from_to u.newPasswd hval
      obtain ⟨w', hw⟩ :=
        add_user_loop_idem u.user u.uid u.newPasswd rfl rfl _ false outc hadd
      rw [happ] at hw
      rw [hread, hparse]
      rw [show u.add_user
          (readEntries PasswdEntry.from_line (linesContent ls) ++
            [Except.ok u.newPasswd]) = .ok ⟨[], w'⟩ from hw]
      simp

/-- File-level idempotence of `add_shadow` on a well-formed shadow file. -/
theorem add_shadow_file_idem (u : UserInfo) (ls : List Str)
    (hls : ∀ l ∈ ls, '\n' ∉ l)
    (hc : ':' ∉ u.user) (hn : '\n' ∉ u.user)
    (hh : startsWithHash u.user = false)
    (out : Str) (h1 : u.add_shadow_file (some (linesContent ls)) = .ok out) :
    u.add_shadow_file (some out) = .ok out := by
  unfold UserInfo.add_shadow_file at h1 ⊢
  simp only [Option.getD_some] at h1 ⊢
  cases hadd : u.add_shadow (readEntries ShadowEntry.from_line (linesContent ls)) with
  | error e =>
    rw [hadd] at h1
    cases h1
  | ok outc =>
    rw [hadd] at h1
    simp only [Except.ok.injEq] at h1
    rcases add_shadow_loop_appended u.user u.newShadow _ outc hadd
      with happ | happ
    · rw [happ] at h1
      simp only [List.map_nil, List.flatten_nil, List.append_nil] at h1
      subst h1
      rw [hadd]
      simp [happ]
    · rw [happ] at h1
      simp only [List.map_cons, List.map_nil, List.flatten_cons,
        List.flatten_nil, List.append_nil] at h1
      have hform : ShadowEntry.to_line u.newShadow =
          joinChar ':' ([u.user, INVALID_PASSWORD, [], [], [], [], [], []]
            ++ [[]]) := rfl
      obtain ⟨xs, hxs⟩ :=
        joinChar_decomp ':' [u.user, INVALID_PASSWORD, [], [], [], [], [], []]
          [] (by simp)
      have hlineEq : ShadowEntry.to_line u.newShadow = xs ++ [':'] := by
        rw [hform, hxs]
      have htrim : trimEnd (ShadowEntry.to_line u.newShadow) =
          ShadowEntry.to_line u.newShadow := by
        rw [hlineEq]
        exact trimEnd_append_of_ne xs [':'] (by simp) rfl
      have hne : ShadowEntry.to_line u.newShadow ≠ [] := by
        rw [hlineEq]
        simp
      have hhash : startsWithHash (ShadowEntry.to_line u.newShadow) = false := by
        have hshape : ShadowEntry.to_line u.newShadow =
            u.user ++ ':' :: joinChar ':'
              [INVALID_PASSWORD, [], [], [], [], [], [], []] := rfl
        rw [hshape]
        exact startsWithHash_field _ _ hh
      have hout : out = linesContent (ls ++ [ShadowEntry.to_line u.newShadow]) := by
        rw [linesContent_append, ← h1]
      have hread : readEntries ShadowEntry.from_line out =
          readEntries ShadowEntry.from_line (linesContent ls) ++
            [ShadowEntry.from_line (ShadowEntry.to_line u.newShadow)] := by
        rw [hout]
        exact readEntries_linesContent_append ShadowEntry.from_line ls _
          hls (newline_not_mem_shadow_to_line u hn) hhash htrim hne
      have hval : ShadowEntry.Valid u.newShadow := by
        unfold ShadowEntry.Valid UserInfo.newShadow
        exact ⟨hc, by show ':' ∉ INVALID_PASSWORD; decide, by simp, by simp,
          by simp, by simp, by simp, by simp⟩
      have hparse : ShadowEntry.from_line (ShadowEntry.to_line u.newShadow) =
          .ok u.newShadow := shadow_from_to u.newShadow hval
      have hw :=
        add_shadow_loop_idem u.user u.newShadow rfl _ outc hadd
      rw [happ] at hw
      rw [hread, hparse]
      rw [show u.add_shadow
          (readEntries ShadowEntry.from_line (linesContent ls) ++
            [Except.ok u.newShadow]) = .ok ⟨[], false⟩ from hw]
      simp

/-- Counterexample to C4 as stated: provisioning is *not* idempotent over
every initial file state.  On the group file `"g:x:5:"` — whose last line
is not newline-terminated — provisioning group (`h`, gid 0) appends its
record onto the unterminated line; on re-read that merged line parses as
name `g`, so the second run finds no match and appends again, leaving the
file byte-different from the first run's result. -/
theorem C4_idempotent_counterexample :
    UserInfo.add_group_file ⟨0, 0, "u".toList, "h".toList⟩
        (some "g:x:5:".toList) = .ok "g:x:5:h:x:0:\n".toList ∧
    UserInfo.add_group_file ⟨0, 0, "u".toList, "h".toList⟩
        (some "g:x:5:h:x:0:\n".toList) =
      .ok "g:x:5:h:x:0:\nh:x:0:\n".toList ∧
    ("g:x:5:h:x:0:\nh:x:0:\n".toList : Str) ≠ "g:x:5:h:x:0:\n".toList :=
  ⟨rfl, rfl, by decide⟩

/-- C4 (amended): identity provisioning is idempotent at the file level
for every *well-formed* initial state — a newline-terminated file — and
every identity whose user and group names are free of the format's
delimiters (no `:`, no newline, not starting with `#`): whenever the
first run of `add_group` / `add_user` / `add_shadow` succeeded, running
it again on the file it produced succeeds and leaves the file
byte-identical (the second run appends nothing to any of the three
files). -/
theorem C4_idempotent_amended (u : UserInfo)
    (gLines pLines sLines : List Str)
    (hgL : ∀ l ∈ gLines, '\n' ∉ l) (hpL : ∀ l ∈ pLines, '\n' ∉ l)
    (hsL : ∀ l ∈ sLines, '\n' ∉ l)
    (hgc : ':' ∉ u.group) (hgn : '\n' ∉ u.group)
    (hgh : startsWithHash u.group = false)
    (huc : ':' ∉ u.user) (hun : '\n' ∉ u.user)
    (huh : startsWithHash u.user = false)
    (huid : u.uid < 4294967296) (hgid : u.gid < 4294967296)
    (gOut pOut sOut : Str)
    (h1 : u.add_group_file (some (linesContent gLines)) = .ok gOut)
    (h2 : u.add_user_file (some (linesContent pLines)) = .ok pOut)
    (h3 : u.add_shadow_file (some (linesContent sLines)) = .ok sOut) :
    u.add_group_file (some gOut) = .ok gOut ∧
    u.add_user_file (some pOut) = .ok pOut ∧
    u.add_shadow_file (some sOut) = .ok sOut :=
  ⟨add_group_file_idem u gLines hgL hgc hgn hgh hgid gOut h1,
   add_user_file_idem u pLines hpL huc hun huh huid hgid pOut h2,
   add_shadow_file_idem u sLines hsL huc hun huh sOut h3⟩

/-- Witness for C4 (amended): provisioning `moe` into empty files and
running all three operations again changes none of the files. -/
theorem C4_idempotent_amended_witness :
    UserInfo.add_group_file ⟨0, 0, "moe".toList, "moe".toList⟩
        (some "moe:x:0:\n".toList) = .ok "moe:x:0:\n".toList ∧
    UserInfo.add_user_file ⟨0, 0, "moe".toList, "moe".toList⟩
        (some "moe:x:0:0:moe:/home/moe:/bin/bash\n".toList) =
      .ok "moe:x:0:0:moe:/home/moe:/bin/bash\n".toList ∧
    UserInfo.add_shadow_file ⟨0, 0, "moe".toList, "moe".toList⟩
        (some "moe:x:::::::\n".toList) = .ok "moe:x:::::::\n".toList :=
  C4_idempotent_amended ⟨0, 0, "moe".toList, "moe".toList⟩ [] [] []
    (by simp) (by simp) (by simp)
    (by decide) (by decide) rfl (by decide) (by decide) rfl
    (by decide) (by decide)
    "moe:x:0:\n".toList "moe:x:0:0:moe:/home/moe:/bin/bash\n".toList
    "moe:x:::::::\n".toList rfl rfl rfl

/-! ## The reader's skip rule (C5) -/

/-- Modelled from the spec's words (C5's reading of the reader): skip
lines starting with `#`, skip lines blank after trimming *only* the
trailing newline (`fileLines` has already stripped the terminator, so that
is `line = []`), and yield every other line's parse result unchanged. -/
def readEntriesClaim {α : Type} (from_line : Str → Except ReadEntryError α)
    (content : Str) : List (Except ReadEntryError α) :=
  (fileLines content).filterMap fun line =>
    if startsWithHash line then none
    else if line = [] then none
    else some (from_line line)

/-- Counterexample to C5 as stated: on the file `" \n"` (one line holding
a single space) the reader yields nothing — `trim_end` removes *all*
trailing whitespace, not only the newline — while the claim's reading
would yield that line's parse result (an `Invalid` error). -/
theorem C5_reader_counterexample :
    readEntries GroupEntry.from_line [' ', '\n'] = [] ∧
    readEntriesClaim GroupEntry.from_line [' ', '\n'] = [.error .Invalid] ∧
    readEntries GroupEntry.from_line [' ', '\n'] ≠
      readEntriesClaim GroupEntry.from_line [' ', '\n'] := by
  have h1 : readEntries GroupEntry.from_line [' ', '\n'] = [] := rfl
  have h2 : readEntriesClaim GroupEntry.from_line [' ', '\n'] =
      [.error .Invalid] := rfl
  refine ⟨h1, h2, ?_⟩
  rw [h1, h2]
  simp

/-- C5 (amended): the reader skips every line starting with `#` and every
line that is blank after trimming trailing whitespace, and yields every
other line's parse result — of the trailing-whitespace-trimmed line —
unchanged; in particular the yield is empty iff every line is a comment
or whitespace-blank. -/
theorem C5_reader_amended {α : Type}
    (from_line : Str → Except ReadEntryError α) (content : Str) :
    (readEntries from_line content = [] ↔
      ∀ l ∈ fileLines content, startsWithHash l = true ∨ trimEnd l = [])
    ∧ (∀ l ∈ fileLines content, startsWithHash l = false → trimEnd l ≠ [] →
        from_line (trimEnd l) ∈ readEntries from_line content) := by
  constructor
  · unfold readEntries
    rw [List.filterMap_eq_nil_iff]
    constructor
    · intro h l hl
      have hthis := h l hl
      by_cases hh : startsWithHash l = true
      · exact Or.inl hh
      · right
        rw [if_neg hh] at hthis
        by_cases ht : trimEnd l = []
        · exact ht
        · rw [if_neg ht] at hthis
          cases hthis
    · intro h l hl
      rcases h l hl with hh | ht
      · rw [if_pos hh]
      · by_cases hh : startsWithHash l = true
        · rw [if_pos hh]
        · rw [if_neg hh, if_pos ht]
  · intro l hl hh ht
    unfold readEntries
    refine List.mem_filterMap.mpr ⟨l, hl, ?_⟩
    rw [if_neg (by rw [hh]; exact Bool.false_ne_true), if_neg ht]

/-- Witness for C5 (amended): a file of one comment line and one blank
line yields no records, and so does a file of a single form-feed line —
`trim_end` removes any Unicode whitespace. -/
theorem C5_reader_amended_witness :
    readEntries GroupEntry.from_line "# comment\n\n".toList = [] ∧
    readEntries GroupEntry.from_line ['\x0C', '\n'] = [] :=
  ⟨(C5_reader_amended GroupEntry.from_line "# comment\n\n".toList).1.mpr
      (by decide),
   (C5_reader_amended GroupEntry.from_line ['\x0C', '\n']).1.mpr
      (by decide)⟩

/-! ## Field-count behavior of the passwd/group parsers (C6) -/

theorem passwd_fromFields_ok_iff (parts : List Str) :
    (∃ ent, PasswdEntry.fromFields parts = .ok ent) ↔
      (7 ≤ parts.length ∧ (readU32 (parts.getD 2 [])).isSome ∧
        (readU32 (parts.getD 3 [])).isSome) := by
  rcases parts with _ | ⟨a, parts⟩
  · simp [PasswdEntry.fromFields, next_field, parse_u32, bind, Except.bind,
      pure, Except.pure, Functor.map, Except.map]
  rcases parts with _ | ⟨b, parts⟩
  · simp [PasswdEntry.fromFields, next_field, parse_u32, bind, Except.bind,
      pure, Except.pure, Functor.map, Except.map]
  rcases parts with _ | ⟨c, parts⟩
  · simp [PasswdEntry.fromFields, next_field, parse_u32, bind, Except.bind,
      pure, Except.pure, Functor.map, Except.map]
  rcases parts with _ | ⟨d, parts⟩
  · cases hc : readU32 c <;>
      simp [PasswdEntry.fromFields, next_field, parse_u32, bind, Except.bind,
        pure, Except.pure, Functor.map, Except.map, List.getD, hc]
  rcases parts with _ | ⟨e, parts⟩
  · cases hc : readU32 c <;> cases hd : readU32 d <;>
      simp [PasswdEntry.fromFields, next_field, parse_u32, bind, Except.bind,
        pure, Except.pure, Functor.map, Except.map, List.getD, hc, hd]
  rcases parts with _ | ⟨f, parts⟩
  · cases hc : readU32 c <;> cases hd : readU32 d <;>
      simp [PasswdEntry.fromFields, next_field, parse_u32, bind, Except.bind,
        pure, Except.pure, Functor.map, Except.map, List.getD, hc, hd]
  rcases parts with _ | ⟨g, parts⟩
  · cases hc : readU32 c <;> cases hd : readU32 d <;>
      simp [PasswdEntry.fromFields, next_field, parse_u32, bind, Except.bind,
        pure, Except.pure, Functor.map, Except.map, List.getD, hc, hd]
  · cases hc : readU32 c <;> cases hd : readU32 d <;>
      simp [PasswdEntry.fromFields, next_field, parse_u32, bind, Except.bind,
        pure, Except.pure, Functor.map, Except.map, List.getD, hc, hd]

theorem group_fromFields_ok_iff (parts : List Str) :
    (∃ ent, GroupEntry.fromFields parts = .ok ent) ↔
      (4 ≤ parts.length ∧ (readU32 (parts.getD 2 [])).isSome) := by
  rcases parts with _ | ⟨a, parts⟩
  · simp [GroupEntry.fromFields, next_field, parse_u32, bind, Except.bind,
      pure, Except.pure, Functor.map, Except.map]
  rcases parts with _ | ⟨b, parts⟩
  · simp [GroupEntry.fromFields, next_field, parse_u32, bind, Except.bind,
      pure, Except.pure, Functor.map, Except.map]
  rcases parts with _ | ⟨c, parts⟩
  · simp [GroupEntry.fromFields, next_field, parse_u32, bind, Except.bind,
      pure, Except.pure, Functor.map, Except.map]
  rcases parts with _ | ⟨d, parts⟩
  · cases hc : readU32 c <;>
      simp [GroupEntry.fromFields, next_field, parse_u32, bind, Except.bind,
        pure, Except.pure, Functor.map, Except.map, List.getD, hc]
  · cases hc : readU32 c <;>
      simp [GroupEntry.fromFields, next_field, parse_u32, bind, Except.bind,
        pure, Except.pure, Functor.map, Except.map, List.getD, hc]

/-- Counterexample to C6 as stated: the parsers never reject extra
fields.  An 8-field passwd line and a 5-field group line both parse
successfully (the extra fields are ignored), while the claim demands that
any field count other than exactly 7 (resp. exactly 4) be rejected. -/
theorem C6_field_count_counterexample :
    (splitOnChar ':' "a:b:1:2:g:h:s:x".toList).length = 8 ∧
    PasswdEntry.from_line "a:b:1:2:g:h:s:x".toList =
      .ok ⟨"a".toList, "b".toList, 1, 2, "g".toList, "h".toList,
        "s".toList⟩ ∧
    (splitOnChar ':' "a:b:1:m:x".toList).length = 5 ∧
    GroupEntry.from_line "a:b:1:m:x".toList =
      .ok ⟨"a".toList, "b".toList, 1, ["m".toList]⟩ :=
  ⟨rfl, rfl, rfl, rfl⟩

/-- C6 (amended): a passwd line parses successfully iff it has at least 7
colon-delimited fields and its 3rd and 4th fields are numeric `u32`s, and
a group line iff it has at least 4 fields and a numeric 3rd field — fields
beyond the required count are ignored, and a line with fewer fields is
rejected. -/
theorem C6_field_count_amended (line : Str) :
    ((∃ ent, PasswdEntry.from_line line = .ok ent) ↔
      (7 ≤ (splitOnChar ':' line).length ∧
        (readU32 ((splitOnChar ':' line).getD 2 [])).isSome ∧
        (readU32 ((splitOnChar ':' line).getD 3 [])).isSome))
    ∧ ((∃ ent, GroupEntry.from_line line = .ok ent) ↔
      (4 ≤ (splitOnChar ':' line).length ∧
        (readU32 ((splitOnChar ':' line).getD 2 [])).isSome)) :=
  ⟨passwd_fromFields_ok_iff (splitOnChar ':' line),
   group_fromFields_ok_iff (splitOnChar ':' line)⟩

/-! ## Shadow optional numeric fields (C7) -/

theorem maybe_parse_some (s : Str) (n : Nat) (h : readU32 s = some n) :
    maybe_parse s = .ok (some n) := by
  have hs : s ≠ [] := by
    rintro rfl
    simp [readU32] at h
  unfold maybe_parse
  rw [if_neg hs, h]

theorem maybe_parse_err (s : Str) (hs : s ≠ []) (h : readU32 s = none) :
    maybe_parse s = .error .ParseInt := by
  unfold maybe_parse
  rw [if_neg hs, h]

theorem shadow_fromFields_parseInt (name passwd s : Str) (rest : List Str)
    (hs : s ≠ []) (h : readU32 s = none) :
    ShadowEntry.fromFields (name :: passwd :: s :: rest) =
      .error .ParseInt := by
  simp [ShadowEntry.fromFields, next_field, bind, Except.bind,
    maybe_parse_err s hs h]

theorem shadow_fromFields_short (parts : List Str) (hlen : parts.length < 8)
    (hok : ∀ o ∈ parts.drop 2, ∃ v, maybe_parse o = .ok v) :
    ShadowEntry.fromFields parts = .error .Invalid := by
  rcases parts with _ | ⟨a, parts⟩
  · rfl
  rcases parts with _ | ⟨b, parts⟩
  · rfl
  rcases parts with _ | ⟨c3, parts⟩
  · rfl
  obtain ⟨v3, h3⟩ := hok c3 (by simp)
  rcases parts with _ | ⟨c4, parts⟩
  · simp [ShadowEntry.fromFields, next_field, bind, Except.bind, h3]
  obtain ⟨v4, h4⟩ := hok c4 (by simp)
  rcases parts with _ | ⟨c5, parts⟩
  · simp [ShadowEntry.fromFields, next_field, bind, Except.bind, h3, h4]
  obtain ⟨v5, h5⟩ := hok c5 (by simp)
  rcases parts with _ | ⟨c6, parts⟩
  · simp [ShadowEntry.fromFields, next_field, bind, Except.bind, h3, h4, h5]
  obtain ⟨v6, h6⟩ := hok c6 (by simp)
  rcases parts with _ | ⟨c7, parts⟩
  · simp [ShadowEntry.fromFields, next_field, bind, Except.bind,
      h3, h4, h5, h6]
  obtain ⟨v7, h7⟩ := hok c7 (by simp)
  rcases parts with _ | ⟨c8, parts⟩
  · simp [ShadowEntry.fromFields, next_field, bind, Except.bind,
      h3, h4, h5, h6, h7]
  · simp at hlen
    omega

/-- Counterexample to C7 as stated: the shadow line `joe:x:zz` has 3
fields (fewer than 8), yet parsing it yields a `ParseInt` error, not the
structural `Invalid` error the claim requires for every line with fewer
than 8 fields — the field-by-field parse reaches the malformed numeric
field before it reaches the missing ones. -/
theorem C7_shadow_optional_counterexample :
    (splitOnChar ':' "joe:x:zz".toList).length = 3 ∧
    ShadowEntry.from_line "joe:x:zz".toList = .error .ParseInt ∧
    ShadowEntry.from_line "joe:x:zz".toList ≠ .error .Invalid := by
  have h : ShadowEntry.from_line "joe:x:zz".toList = .error .ParseInt := rfl
  refine ⟨rfl, h, ?_⟩
  rw [h]
  simp

/-- C7 (amended): an empty optional shadow field parses to absent; a
non-empty valid `u32` field parses to its value; a non-empty unparseable
field makes the whole line a hard `ParseInt` error (never absent);
serializing an absent field produces the empty string; and a line with
fewer than 8 fields, *all of whose present optional fields parse*, is an
`Invalid` structural error — distinct from `ParseInt`, which takes
precedence when a present optional field is malformed. -/
theorem C7_shadow_optional_amended :
    maybe_parse [] = .ok none
    ∧ (∀ s n, readU32 s = some n → maybe_parse s = .ok (some n))
    ∧ (∀ s, s ≠ [] → readU32 s = none → maybe_parse s = .error .ParseInt)
    ∧ (∀ (name passwd s : Str) (rest : List Str), s ≠ [] →
        readU32 s = none →
        ShadowEntry.fromFields (name :: passwd :: s :: rest) =
          .error .ParseInt)
    ∧ to_string_or_empty none = []
    ∧ (∀ parts, parts.length < 8 →
        (∀ o ∈ parts.drop 2, ∃ v, maybe_parse o = .ok v) →
        ShadowEntry.fromFields parts = .error .Invalid)
    ∧ ReadEntryError.Invalid ≠ ReadEntryError.ParseInt :=
  ⟨rfl, maybe_parse_some, maybe_parse_err, shadow_fromFields_parseInt, rfl,
   shadow_fromFields_short, by simp⟩

/-- Witness for C7 at concrete fields: a malformed non-empty optional
field is a hard `ParseInt` error, and a 6-field line with well-formed
optional fields is `Invalid`. -/
theorem C7_shadow_optional_amended_witness :
    ShadowEntry.fromFields
      ["joe".toList, "x".toList, "zz".toList] = .error .ParseInt ∧
    ShadowEntry.fromFields
      ["joe".toList, "*".toList, "18881".toList, "0".toList, "99999".toList,
        "7".toList] = .error .Invalid := by
  constructor
  · exact C7_shadow_optional_amended.2.2.2.1 "joe".toList "x".toList
      "zz".toList [] (by decide) (by decide)
  · refine C7_shadow_optional_amended.2.2.2.2.2.1 _ (by decide) ?_
    intro o ho
    simp only [List.drop, List.mem_cons, List.not_mem_nil, or_false] at ho
    rcases ho with rfl | rfl | rfl | rfl
    · exact ⟨some 18881, rfl⟩
    · exact ⟨some 0, rfl⟩
    · exact ⟨some 99999, rfl⟩
    · exact ⟨some 7, rfl⟩

/-! ## Writer exactness and short writes (C8) -/

/-- C8: the writer writes exactly the serialized line plus one newline —
it succeeds iff the underlying write reports exactly that byte count, the
file then ends with exactly that data, a lesser (or different) reported
count is a hard `shortWrite` failure, and an underlying I/O failure is
propagated. -/
theorem C8_writer_exact {α : Type} (to_line : α → Str) (file : Str)
    (entry : α) (n : Nat) :
    EntFileWriter.write to_line file entry
        (some (to_line entry ++ ['\n']).length) =
      .ok (file ++ (to_line entry ++ ['\n']))
    ∧ (n ≠ (to_line entry ++ ['\n']).length →
        EntFileWriter.write to_line file entry (some n) = .error .shortWrite)
    ∧ EntFileWriter.write to_line file entry none = .error .ioError
    ∧ (∀ out, EntFileWriter.write to_line file entry (some n) = .ok out →
        n = (to_line entry ++ ['\n']).length ∧
        out = file ++ (to_line entry ++ ['\n'])) := by
  refine ⟨?_, ?_, rfl, ?_⟩
  · simp [EntFileWriter.write]
  · intro hne
    simp only [List.length_append, List.length_cons, List.length_nil,
      Nat.zero_add] at hne
    simp [EntFileWriter.write, hne]
  · intro out h
    by_cases hn : n = (to_line entry ++ ['\n']).length
    · refine ⟨hn, ?_⟩
      simp only [EntFileWriter.write, hn, ne_eq, not_true_eq_false,
        if_false, ite_false, Except.ok.injEq] at h
      exact h.symm
    · have hn2 : ¬ n = (to_line entry).length + 1 := by
        simpa using hn
      simp [EntFileWriter.write, hn2] at h

/-- Witness for C8: a reported count of 0 for a non-empty line is a
`shortWrite` failure. -/
theorem C8_writer_exact_witness :
    EntFileWriter.write GroupEntry.to_line []
      ⟨"g".toList, "x".toList, 5, []⟩ (some 0) = .error .shortWrite := by
  refine (C8_writer_exact GroupEntry.to_line []
    ⟨"g".toList, "x".toList, 5, []⟩ 0).2.1 ?_
  simp

/-! ## A missing account file is never an error (C10) -/

/-- C10: every file-level `add_*` succeeds on a missing file —
`open_read_append` creates it empty, the conflict scan over the empty
content finds nothing, and the operation appends its one new record,
leaving a file holding exactly that record's line. -/
theorem C10_missing_file (u : UserInfo) :
    u.add_group_file none = .ok (GroupEntry.to_line u.newGroup ++ ['\n'])
    ∧ u.add_user_file none = .ok (PasswdEntry.to_line u.newPasswd ++ ['\n'])
    ∧ u.add_shadow_file none = .ok (ShadowEntry.to_line u.newShadow ++ ['\n']) := by
  refine ⟨?_, ?_, ?_⟩
  · simp [UserInfo.add_group_file, readEntries, fileLines, dropLastEmpty,
      splitOnChar, UserInfo.add_group, add_group_loop]
  · simp [UserInfo.add_user_file, readEntries, fileLines, dropLastEmpty,
      splitOnChar, UserInfo.add_user, add_user_loop]
  · simp [UserInfo.add_shadow_file, readEntries, fileLines, dropLastEmpty,
      splitOnChar, UserInfo.add_shadow, add_shadow_loop]

end Scubainit
